import Mathlib

/-!
# ekvols: the `list` command (cmd/list.go)

A shallow embedding of `listRun` and its helpers.  Go strings are Lean strings
(sequences of characters; the embedding covers valid UTF-8 text), Go maps are
association lists read with `List.lookup` (a later write shadows an earlier
one), `float64` is an explicit model of IEEE-754 binary64 with
round-to-nearest-even, and `time.Duration` is an integer count of nanoseconds.
-/

namespace Ekvols

/-! ## float64 -/

/-- IEEE-754 binary64 values: NaN, the two infinities, and the finite values
`(-1)^neg * m * 2^e` (signed zero is `m = 0`). -/
inductive F64 where
  | nan : F64
  | inf (neg : Bool) : F64
  | fin (neg : Bool) (m : Nat) (e : Int) : F64
  deriving DecidableEq, Repr

/-- Number of binary digits of `n`, by halving (`fuel` bounds the halvings). -/
def bitLen : Nat → Nat → Nat
  | 0, _ => 0
  | fuel + 1, n => if n = 0 then 0 else 1 + bitLen fuel (n / 2)

/-- Round-to-nearest, ties-to-even, quotient of two naturals. -/
def divRoundEven (n d : Nat) : Nat :=
  let q := n / d
  let r := n % d
  if 2 * r > d ∨ (2 * r = d ∧ q % 2 = 1) then q + 1 else q

/-- The binary64 nearest to `(-1)^neg * n / d` (`d > 0`), ties to even:
53 significant bits, exponent of the last place at least `-1074`
(subnormals), overflow to infinity past `(2^53 - 1) * 2^971`. -/
def F64.round (neg : Bool) (n d : Nat) : F64 :=
  if n = 0 then F64.fin neg 0 0 else
  -- `k` is within one of `floor (log2 (n / d))`; the exact value is `k` or `k - 1`
  let k : Int := (bitLen n n : Int) - (bitLen d d : Int)
  let k : Int := if d * 2 ^ k.toNat ≤ n * 2 ^ (-k).toNat then k else k - 1
  let e : Int := max (k - 52) (-1074)
  let m := divRoundEven (n * 2 ^ (-e).toNat) (d * 2 ^ e.toNat)
  let e2 : Int := if m = 2 ^ 53 then e + 1 else e
  let m2 : Nat := if m = 2 ^ 53 then 2 ^ 52 else m
  if e2 > 971 then F64.inf neg else F64.fin neg m2 e2

/-- Conversion `float64(i)` of an integer. -/
def F64.ofInt (i : Int) : F64 := F64.round (decide (i < 0)) i.natAbs 1

/-- The floating-point quotient `x / y`. -/
def F64.div : F64 → F64 → F64
  | F64.nan, _ => F64.nan
  | _, F64.nan => F64.nan
  | F64.inf _, F64.inf _ => F64.nan
  | F64.inf a, F64.fin b _ _ => F64.inf (xor a b)
  | F64.fin a _ _, F64.inf b => F64.fin (xor a b) 0 0
  | F64.fin a m e, F64.fin b n f =>
      if n = 0 then (if m = 0 then F64.nan else F64.inf (xor a b))
      else F64.round (xor a b) (m * 2 ^ (e - f).toNat) (n * 2 ^ (f - e).toNat)

/-- The floating-point product `x * y`. -/
def F64.mul : F64 → F64 → F64
  | F64.nan, _ => F64.nan
  | _, F64.nan => F64.nan
  | F64.inf a, F64.inf b => F64.inf (xor a b)
  | F64.inf a, F64.fin b n _ => if n = 0 then F64.nan else F64.inf (xor a b)
  | F64.fin a m _, F64.inf b => if m = 0 then F64.nan else F64.inf (xor a b)
  | F64.fin a m e, F64.fin b n f =>
      F64.round (xor a b) (m * n * 2 ^ (e + f).toNat) (2 ^ (-(e + f)).toNat)

/-- The floating-point sum `x + y`. -/
def F64.add : F64 → F64 → F64
  | F64.nan, _ => F64.nan
  | _, F64.nan => F64.nan
  | F64.inf a, F64.inf b => if a = b then F64.inf a else F64.nan
  | F64.inf a, F64.fin _ _ _ => F64.inf a
  | F64.fin _ _ _, F64.inf b => F64.inf b
  | F64.fin a m e, F64.fin b n f =>
      let g : Int := min e f
      let x : Int := (if a then -1 else 1) * ((m * 2 ^ (e - g).toNat : Nat) : Int)
      let y : Int := (if b then -1 else 1) * ((n * 2 ^ (f - g).toNat : Nat) : Int)
      let s : Int := x + y
      if s = 0 then F64.fin (a && b) 0 0
      else F64.round (decide (s < 0)) (s.natAbs * 2 ^ g.toNat) (2 ^ (-g).toNat)

/-- The comparison `x > 0`. -/
def F64.gtZero : F64 → Bool
  | F64.nan => false
  | F64.inf neg => !neg
  | F64.fin neg m _ => !neg && decide (0 < m)

/-- Conversion `int(x)`: truncation toward zero.  Go leaves the conversion of
NaN and the infinities implementation-defined; no caller below reaches them. -/
def F64.toInt : F64 → Int
  | F64.nan => 0
  | F64.inf _ => 0
  | F64.fin neg m e =>
      let a : Nat := m * 2 ^ e.toNat / 2 ^ (-e).toNat
      if neg then -(a : Int) else (a : Int)

/-- Rendering by `fmt.Sprintf("%.1f", x)`: the exact value rounded half-to-even
to one decimal, with a minus sign when the sign bit is set; `NaN`, `+Inf`
and `-Inf` for the non-finite values. -/
def F64.sprintf1 : F64 → String
  | F64.nan => "NaN"
  | F64.inf neg => if neg then "-Inf" else "+Inf"
  | F64.fin neg m e =>
      let t := divRoundEven (m * 10 * 2 ^ e.toNat) (2 ^ (-e).toNat)
      (if neg then "-" else "") ++ toString (t / 10) ++ "." ++ toString (t % 10)

/-- The zero value of a `float64` variable. -/
def F64.zero : F64 := F64.fin false 0 0

/-! ## time.Duration -/

/-- Nanoseconds in a second (`time.Second`). -/
def Second : Int := 1000000000

/-- Nanoseconds in a minute (`time.Minute`). -/
def Minute : Int := 60 * Second

/-- Nanoseconds in an hour (`time.Hour`). -/
def Hour : Int := 60 * Minute

/-- The method `Duration.Seconds`: `float64(d / Second) + float64(d % Second) / 1e9`. -/
def Duration.Seconds (d : Int) : F64 :=
  F64.add (F64.ofInt (d.tdiv Second)) (F64.div (F64.ofInt (d.tmod Second)) (F64.ofInt 1000000000))

/-- The method `Duration.Minutes`: `float64(d / Minute) + float64(d % Minute) / (60 * 1e9)`. -/
def Duration.Minutes (d : Int) : F64 :=
  F64.add (F64.ofInt (d.tdiv Minute)) (F64.div (F64.ofInt (d.tmod Minute)) (F64.ofInt 60000000000))

/-- The method `Duration.Hours`: `float64(d / Hour) + float64(d % Hour) / (60 * 60 * 1e9)`. -/
def Duration.Hours (d : Int) : F64 :=
  F64.add (F64.ofInt (d.tdiv Hour)) (F64.div (F64.ofInt (d.tmod Hour)) (F64.ofInt 3600000000000))

/-- Source: `humanizeAge` (cmd/list.go). -/
def humanizeAge (d : Int) : String :=
  if d < Minute then toString (Duration.Seconds d).toInt ++ "s"
  else
    let days := (Duration.Hours d).toInt.tdiv 24
    let hours := (Duration.Hours d).toInt.tmod 24
    let mins := (Duration.Minutes d).toInt.tmod 60
    if days > 0 ∧ hours > 0 then toString days ++ "d" ++ toString hours ++ "h"
    else if days > 0 then toString days ++ "d"
    else if hours > 0 ∧ mins > 0 then toString hours ++ "h" ++ toString mins ++ "m"
    else if hours > 0 then toString hours ++ "h"
    else toString mins ++ "m"

/-! ## Identifier helpers -/

/-- The character class `[0-9a-fA-F]` of `volRe`. -/
def isHexDigit (c : Char) : Bool :=
  (decide ('0' ≤ c) && decide (c ≤ '9')) ||
  (decide ('a' ≤ c) && decide (c ≤ 'f')) ||
  (decide ('A' ≤ c) && decide (c ≤ 'F'))

/-- The literal part `vol-` of `volRe`. -/
def volLit : List Char := ['v', 'o', 'l', '-']

/-- The rest of `s` after the literal `lit`, when `s` starts with it. -/
def dropLiteral : List Char → List Char → Option (List Char)
  | [], s => some s
  | _ :: _, [] => none
  | a :: lit, b :: s => if a = b then dropLiteral lit s else none

/-- The pattern `vol-[0-9a-fA-F]+` anchored at the start of `s`: the literal,
then the greedy run of hexadecimal digits, which must not be empty. -/
def volReMatchHere (s : List Char) : Option (List Char) :=
  match dropLiteral volLit s with
  | none => none
  | some rest =>
      match rest.takeWhile isHexDigit with
      | [] => none
      | h :: hs => some (volLit ++ h :: hs)

/-- The call `volRe.FindString(s)`: the text of the leftmost match of
`vol-[0-9a-fA-F]+`, the empty string when there is none. -/
def volReFindString : List Char → List Char
  | [] => []
  | c :: cs =>
      match volReMatchHere (c :: cs) with
      | some m => m
      | none => volReFindString cs

/-- Source: `normalizeVolID` (cmd/list.go). -/
def normalizeVolID (s : String) : String :=
  if s = "" then ""
  else
    let m := String.mk (volReFindString s.data)
    if m ≠ "" then m else s

/-- The call `strings.Split(s, sep)` for a one-character separator. -/
def stringsSplit (sep : Char) : List Char → List (List Char)
  | [] => [[]]
  | c :: cs =>
      if c = sep then [] :: stringsSplit sep cs
      else
        match stringsSplit sep cs with
        | [] => [[c]]
        | p :: ps => (c :: p) :: ps

/-- Source: `instanceIDFromProviderID` (cmd/list.go). -/
def instanceIDFromProviderID (pid : String) : String :=
  if pid = "" then ""
  else
    let parts := stringsSplit '/' pid.data
    String.mk (parts.getD (parts.length - 1) [])

/-- Source: `accessModesShort` (cmd/list.go). -/
def accessModesShort (modes : List String) : String :=
  if modes.length = 0 then "-"
  else
    ",".intercalate (modes.map fun m =>
      if m = "ReadWriteOnce" then "RWO"
      else if m = "ReadOnlyMany" then "ROX"
      else if m = "ReadWriteMany" then "RWX"
      else if m = "ReadWriteOncePod" then "RWOP"
      else m)

/-! ## Cluster objects -/

/-- The field `Spec.CSI` of a volume. -/
structure CSIPersistentVolumeSource where
  VolumeHandle : String
  deriving DecidableEq, Repr

/-- The field `Spec.AWSElasticBlockStore` of a volume. -/
structure AWSElasticBlockStoreVolumeSource where
  VolumeID : String
  deriving DecidableEq, Repr

/-- The fields of `corev1.PersistentVolume` that `listRun` reads. -/
structure PersistentVolume where
  Name : String
  StorageClassName : String
  CSI : Option CSIPersistentVolumeSource
  AWSElasticBlockStore : Option AWSElasticBlockStoreVolumeSource
  PersistentVolumeReclaimPolicy : String
  deriving DecidableEq, Repr

/-- The fields of `corev1.PersistentVolumeClaim` that `listRun` reads.
`StorageRequest` is `Spec.Resources.Requests[storage]` in the text
`Quantity.String` gives it; `CreationTimestamp` is in nanoseconds. -/
structure PersistentVolumeClaim where
  Namespace : String
  Name : String
  VolumeName : String
  StorageRequest : Option String
  StorageClassName : Option String
  AccessModes : List String
  Phase : String
  CreationTimestamp : Int
  deriving DecidableEq, Repr

/-- The fields of `corev1.Node` that `listRun` reads. -/
structure Node where
  Name : String
  ProviderID : String
  deriving DecidableEq, Repr

/-- A pod volume: the claim name of its `PersistentVolumeClaim` source, if it has one. -/
structure Volume where
  PersistentVolumeClaim : Option String
  deriving DecidableEq, Repr

/-- The fields of `corev1.Pod` that `listRun` reads. -/
structure Pod where
  Namespace : String
  NodeName : String
  Volumes : List Volume
  deriving DecidableEq, Repr

/-- A label of a metric sample. -/
structure LabelPair where
  Name : String
  Value : String
  deriving DecidableEq, Repr

/-- A metric sample: `Gauge` (`Untyped`) is the value when the sample has a
gauge (an untyped value) and that value is set. -/
structure Metric where
  Label : List LabelPair
  Gauge : Option F64
  Untyped : Option F64
  deriving DecidableEq, Repr

/-- A Go map keyed by strings: `List.lookup` reads it, a write conses. -/
abbrev GoMap (β : Type) := List (String × β)

/-- The samples of a metric family (`dto.MetricFamily.Metric`). -/
abbrev MetricFamily := List Metric

/-- The result of parsing a metrics document: family name to family. -/
abbrev Families := GoMap MetricFamily

/-- The local type `usage` of `listRun`. -/
structure usage where
  usedBytes : F64
  capacityBytes : F64
  inodesUsed : F64
  inodesTotal : F64
  deriving DecidableEq, Repr

/-- A volume of a `DescribeVolumes` answer. -/
structure EC2Volume where
  VolumeId : Option String
  VolumeType : String
  deriving DecidableEq, Repr

/-- What one run of `listRun` reads from outside: the namespace flag, the
answers of the cluster API (`none` is an error), the provider client (`none`
when `AwsClient` or its EC2 client is nil), the clock, and the order in which
`range` visits the keys of a node set during the row of a given index (Go
leaves the iteration order of a map unspecified). -/
structure World where
  nsFilter : String
  listPVs : Option (List PersistentVolume)
  listNodes : Option (List Node)
  getRaw : String → Option String
  textToMetricFamilies : String → Option Families
  listPods : Option (List Pod)
  describeVolumes : Option (List String → Option (List EC2Volume))
  listPVCs : Option (List PersistentVolumeClaim)
  now : Int
  rangeOrder : Nat → List String → List String

/-- One printed line of the table, column by column. -/
structure Row where
  NAMESPACE : String
  PVC : String
  PV : String
  CAP : String
  SC : String
  VOLUME_ID : String
  VTYPE : String
  NODE_ID : String
  STATUS : String
  CAP_PCT : String
  IND_PCT : String
  AM : String
  RC : String
  AGE : String
  deriving DecidableEq, Repr

/-! ## listRun -/

/-- Source: `extractVolumeID` (cmd/list.go). -/
def extractVolumeID (pv : PersistentVolume) : String :=
  match pv.CSI with
  | some csi =>
      if csi.VolumeHandle ≠ "" then normalizeVolID csi.VolumeHandle
      else
        match pv.AWSElasticBlockStore with
        | some ebs => if ebs.VolumeID ≠ "" then normalizeVolID ebs.VolumeID else ""
        | none => ""
  | none =>
      match pv.AWSElasticBlockStore with
      | some ebs => if ebs.VolumeID ≠ "" then normalizeVolID ebs.VolumeID else ""
      | none => ""

/-- The map `pvIndex` (lines 44-47): a later volume of the same name overwrites. -/
def buildPVIndex (items : List PersistentVolume) : GoMap PersistentVolume :=
  items.foldl (fun pvIndex pv => (pv.Name, pv) :: pvIndex) []

/-- The slice `allVolIDs` (lines 50-59); the slice itself serves as `seenVol`. -/
def collectVolIDs (items : List PersistentVolume) : List String :=
  items.foldl (fun allVolIDs pv =>
    let id := extractVolumeID pv
    if id ≠ "" then (if id ∈ allVolIDs then allVolIDs else allVolIDs ++ [id])
    else allVolIDs) []

/-- The map `nodeToInstance` (lines 76-79). -/
def buildNodeToInstance (nodes : List Node) : GoMap String :=
  nodes.foldl (fun m n => (n.Name, instanceIDFromProviderID n.ProviderID) :: m) []

/-- The closure `parseFamilies` (lines 83-89). -/
def parseFamilies (w : World) (raw : String) : Option Families :=
  w.textToMetricFamilies raw

/-- The test `fams == nil || fams["kubelet_volume_stats_used_bytes"] == nil`. -/
def lacksUsedBytes (fams : Option Families) : Bool :=
  match fams with
  | none => true
  | some f => (f.lookup "kubelet_volume_stats_used_bytes").isNone

/-- The fetch phase of one node of the scrape loop (lines 91-106): the paths
requested from the API server, in order, and the families to aggregate
(`none`: the loop continues with the next node). -/
def scrapeNode (w : World) (n : Node) : List String × Option Families :=
  let path := "/api/v1/nodes/" ++ n.Name ++ "/proxy/metrics"
  match w.getRaw path with
  | none => ([path], none)
  | some raw =>
      let fams := parseFamilies w raw
      if lacksUsedBytes fams then
        let path2 := "/api/v1/nodes/" ++ n.Name ++ "/proxy/metrics/resource"
        match w.getRaw path2 with
        | none => ([path, path2], fams)
        | some raw2 =>
            match parseFamilies w raw2 with
            | some fams2 => ([path, path2], some fams2)
            | none => ([path, path2], fams)
      else ([path], fams)

/-- The four family names aggregated (lines 107-112). -/
def familyNames : List String :=
  ["kubelet_volume_stats_used_bytes", "kubelet_volume_stats_capacity_bytes",
   "kubelet_volume_stats_inodes", "kubelet_volume_stats_inodes_used"]

/-- The labels `namespace` and `persistentvolumeclaim` of a sample (lines 118-126). -/
def sampleLabels (labels : List LabelPair) : String × String :=
  labels.foldl (fun acc lp =>
    if lp.Name = "namespace" then (lp.Value, acc.2)
    else if lp.Name = "persistentvolumeclaim" then (acc.1, lp.Value)
    else acc) ("", "")

/-- The value of a sample (lines 137-142). -/
def sampleValue (m : Metric) : F64 :=
  match m.Gauge with
  | some v => v
  | none =>
      match m.Untyped with
      | some v => v
      | none => F64.zero

/-- The write of a value into the field the family name selects (lines 143-152). -/
def setUsageField (name : String) (u : usage) (val : F64) : usage :=
  if name = "kubelet_volume_stats_used_bytes" then usage.mk val u.capacityBytes u.inodesUsed u.inodesTotal
  else if name = "kubelet_volume_stats_capacity_bytes" then usage.mk u.usedBytes val u.inodesUsed u.inodesTotal
  else if name = "kubelet_volume_stats_inodes" then usage.mk u.usedBytes u.capacityBytes u.inodesUsed val
  else if name = "kubelet_volume_stats_inodes_used" then usage.mk u.usedBytes u.capacityBytes val u.inodesTotal
  else u

/-- The body of the loop over the samples of a family (lines 117-153). -/
def aggregateSample (nsFilter name : String) (usageByPVC : GoMap usage) (m : Metric) : GoMap usage :=
  let ns := (sampleLabels m.Label).1
  let pvc := (sampleLabels m.Label).2
  if ns = "" ∨ pvc = "" ∨ (nsFilter ≠ "" ∧ ns ≠ nsFilter) then usageByPVC
  else
    let key := ns ++ "/" ++ pvc
    let u := (usageByPVC.lookup key).getD (usage.mk F64.zero F64.zero F64.zero F64.zero)
    (key, setUsageField name u (sampleValue m)) :: usageByPVC

/-- The loop over the four families of one document (lines 107-154). -/
def aggregateFamilies (nsFilter : String) (fams : Families) (usageByPVC : GoMap usage) : GoMap usage :=
  familyNames.foldl (fun acc name =>
    match fams.lookup name with
    | none => acc
    | some mf => mf.foldl (aggregateSample nsFilter name) acc) usageByPVC

/-- The scrape loop over the nodes (lines 90-155). -/
def scrapeAll (w : World) (nodes : List Node) : GoMap usage :=
  nodes.foldl (fun usageByPVC n =>
    match (scrapeNode w n).2 with
    | none => usageByPVC
    | some fams => aggregateFamilies w.nsFilter fams usageByPVC) []

/-- The write `pvcToNodes[k][node] = struct{}{}` (lines 171-174); a node set is
the list of its keys without repetition. -/
def addNode (pvcToNodes : GoMap (List String)) (k node : String) : GoMap (List String) :=
  let set := (pvcToNodes.lookup k).getD []
  (k, if node ∈ set then set else set ++ [node]) :: pvcToNodes

/-- The loop over the volumes of one pod (lines 163-175). -/
def addPod (pvcToNodes : GoMap (List String)) (p : Pod) : GoMap (List String) :=
  if p.NodeName = "" then pvcToNodes
  else
    p.Volumes.foldl (fun acc v =>
      match v.PersistentVolumeClaim with
      | none => acc
      | some claimName => addNode acc (p.Namespace ++ "/" ++ claimName) p.NodeName) pvcToNodes

/-- The map `pvcToNodes` (lines 158-177); it stays empty when listing the pods failed. -/
def buildPvcToNodes (pods : Option (List Pod)) : GoMap (List String) :=
  match pods with
  | none => []
  | some items => items.foldl addPod []

/-- The writes of one `DescribeVolumes` answer into `volType` (lines 194-199). -/
def recordVolumes (volType : GoMap String) (vols : List EC2Volume) : GoMap String :=
  vols.foldl (fun acc v =>
    match v.VolumeId with
    | none => acc
    | some id => if v.VolumeType = "" then acc else (id, v.VolumeType) :: acc) volType

/-- The batch loop (lines 183-200): 200 identifiers a call, a failed call is
skipped.  `fuel` bounds the number of batches. -/
def describeLoop (describe : List String → Option (List EC2Volume)) :
    Nat → List String → GoMap String → GoMap String
  | 0, _, volType => volType
  | fuel + 1, ids, volType =>
      if ids.length = 0 then volType
      else
        let volType2 :=
          match describe (ids.take 200) with
          | none => volType
          | some vols => recordVolumes volType vols
        describeLoop describe fuel (ids.drop 200) volType2

/-- The map `volType` (lines 180-201). -/
def fetchVolTypes (describe : Option (List String → Option (List EC2Volume)))
    (allVolIDs : List String) : GoMap String :=
  match describe with
  | none => []
  | some f => describeLoop f allVolIDs.length allVolIDs []

/-- The call `now.Sub(t)`: the difference, saturated to the range of `int64`. -/
def timeSub (now t : Int) : Int :=
  max (-(2 : Int) ^ 63) (min (now - t) ((2 : Int) ^ 63 - 1))

/-- The lookup tables the row loop reads. -/
structure Tables where
  pvIndex : GoMap PersistentVolume
  usageByPVC : GoMap usage
  nodeToInstance : GoMap String
  pvcToNodes : GoMap (List String)
  volType : GoMap String

/-- The storage class of a row (lines 226-233). -/
def rowSC (pvc : PersistentVolumeClaim) (pv : Option PersistentVolume) : String :=
  let sc := pvc.StorageClassName.getD ""
  match pv with
  | some pvObj => if sc = "" ∧ pvObj.StorageClassName ≠ "" then pvObj.StorageClassName else sc
  | none => sc

/-- The volume id of a row (lines 236-243). -/
def rowVolID (pv : Option PersistentVolume) : String :=
  match pv with
  | none => ""
  | some pvObj =>
      match pvObj.CSI with
      | some csi =>
          if csi.VolumeHandle ≠ "" then normalizeVolID csi.VolumeHandle
          else
            match pvObj.AWSElasticBlockStore with
            | some ebs => normalizeVolID ebs.VolumeID
            | none => ""
      | none =>
          match pvObj.AWSElasticBlockStore with
          | some ebs => normalizeVolID ebs.VolumeID
          | none => ""

/-- The volume type of a row (lines 246-251). -/
def rowVType (volType : GoMap String) (volID : String) : String :=
  if volID ≠ "" then
    match volType.lookup volID with
    | some t => if t ≠ "" then t else "-"
    | none => "-"
  else "-"

/-- The instance ids collected for a row (lines 257-262), in the order `range`
visits the node set. -/
def rowInstanceIDs (nodeToInstance : GoMap String) (order : List String → List String)
    (nodesSet : List String) : List String :=
  (order nodesSet).foldl (fun ids nodeName =>
    let iid := (nodeToInstance.lookup nodeName).getD ""
    if iid ≠ "" then ids ++ [iid] else ids) []

/-- The node ids of a row (lines 254-266). -/
def rowNodeIDs (t : Tables) (order : List String → List String) (key : String) : String :=
  match t.pvcToNodes.lookup key with
  | none => "-"
  | some nodesSet =>
      if nodesSet.length > 0 then
        let ids := rowInstanceIDs t.nodeToInstance order nodesSet
        if ids.length > 0 then ",".intercalate ids else "-"
      else "-"

/-- One percentage column (lines 271-274 and 275-278). -/
def pctColumn (used total : F64) : String :=
  if total.gtZero then (F64.mul (F64.div used total) (F64.ofInt 100)).sprintf1 else "-"

/-- The column CAP% of a row (lines 269-274). -/
def rowCapPct (usageByPVC : GoMap usage) (key : String) : String :=
  match usageByPVC.lookup key with
  | none => "-"
  | some u => pctColumn u.usedBytes u.capacityBytes

/-- The column IND% of a row (lines 269-279). -/
def rowInodePct (usageByPVC : GoMap usage) (key : String) : String :=
  match usageByPVC.lookup key with
  | none => "-"
  | some u => pctColumn u.inodesUsed u.inodesTotal

/-- The reclaim policy of a row (lines 285-291). -/
def rowReclaim (pv : Option PersistentVolume) : String :=
  match pv with
  | none => "-"
  | some pvObj =>
      if pvObj.PersistentVolumeReclaimPolicy = "" then "-" else pvObj.PersistentVolumeReclaimPolicy

/-- The body of the row loop (lines 217-302): the line printed for one claim. -/
def mkRow (t : Tables) (now : Int) (order : List String → List String)
    (pvc : PersistentVolumeClaim) : Row :=
  let pvName := pvc.VolumeName
  let capStr := pvc.StorageRequest.getD "-"
  let pv := t.pvIndex.lookup pvName
  let sc := rowSC pvc pv
  let volID := rowVolID pv
  let vtype := rowVType t.volType volID
  let key := pvc.Namespace ++ "/" ++ pvc.Name
  let nodeIDs := rowNodeIDs t order key
  let capPct := rowCapPct t.usageByPVC key
  let inodePct := rowInodePct t.usageByPVC key
  let access := accessModesShort pvc.AccessModes
  let reclaim := rowReclaim pv
  let age := humanizeAge (timeSub now pvc.CreationTimestamp)
  match pv with
  | some pvObj =>
      Row.mk pvc.Namespace pvc.Name pvObj.Name capStr sc volID vtype nodeIDs pvc.Phase capPct
        inodePct access reclaim age
  | none =>
      Row.mk pvc.Namespace pvc.Name "(none)" capStr sc volID vtype nodeIDs pvc.Phase capPct
        inodePct access reclaim age

/-- The row loop (lines 216-303): the lines written, in order; `rangeOrder i`
is the iteration order of node sets during the row of index `i`. -/
def rowLoop (t : Tables) (now : Int) (rangeOrder : Nat → List String → List String)
    (items : List PersistentVolumeClaim) : List Row :=
  items.foldl (fun out pvc => out ++ [mkRow t now (rangeOrder out.length) pvc]) []

/-- The same cluster and provider state observed by another run: another
clock reading and another iteration order of the node sets. -/
def World.rerun (w : World) (now : Int) (rangeOrder : Nat → List String → List String) : World :=
  World.mk w.nsFilter w.listPVs w.listNodes w.getRaw w.textToMetricFamilies w.listPods
    w.describeVolumes w.listPVCs now rangeOrder

/-- The tables `listRun` has built when it reaches the row loop. -/
def buildTables (w : World) (pvItems : List PersistentVolume) (nodes : List Node) : Tables :=
  Tables.mk (buildPVIndex pvItems) (scrapeAll w nodes) (buildNodeToInstance nodes)
    (buildPvcToNodes w.listPods) (fetchVolTypes w.describeVolumes (collectVolIDs pvItems))

/-- Source: `listRun` (cmd/list.go): the rows printed under the header, or the
message written to standard error when a list call fails. -/
def listRun (w : World) : Except String (List Row) :=
  match w.listPVs with
  | none => Except.error "list PV error:"
  | some pvItems =>
      match w.listNodes with
      | none => Except.error "list Nodes error:"
      | some nodes =>
          match w.listPVCs with
          | none => Except.error "list PVC error:"
          | some items => Except.ok (rowLoop (buildTables w pvItems nodes) w.now w.rangeOrder items)

/-! ## Example inputs -/

/-- A world with no nodes, no pods and no provider client, whose only volume
`pv-1` carries neither a CSI handle nor a legacy EBS id, bound by the claim
`default/data` created at the time of the run. -/
def worldNoIdentifier : World :=
  World.mk "" (some [PersistentVolume.mk "pv-1" "gp3" none none "Delete"]) (some [])
    (fun _ => none) (fun _ => none) (some []) none
    (some [PersistentVolumeClaim.mk "default" "data" "pv-1" (some "1Gi") none ["ReadWriteOnce"]
      "Bound" 0])
    0 (fun _ l => l)

/-- The lookup tables of `worldNoIdentifier`. -/
def tablesNoIdentifier : Tables :=
  Tables.mk [("pv-1", PersistentVolume.mk "pv-1" "gp3" none none "Delete")] [] [] [] []

/-- Three pods of namespace `default` that mount the claim `data`: two on
`node-a`, one on `node-b`. -/
def podsTwoNodes : List Pod :=
  [Pod.mk "default" "node-a" [Volume.mk (some "data")],
   Pod.mk "default" "node-b" [Volume.mk none, Volume.mk (some "data")],
   Pod.mk "default" "node-a" [Volume.mk (some "data")]]

/-- The lookup tables for `podsTwoNodes`, with the instances of both nodes known. -/
def tablesTwoNodes : Tables :=
  Tables.mk [] [] [("node-b", "i-0b"), ("node-a", "i-0a")] (buildPvcToNodes (some podsTwoNodes)) []

/-- An unbound claim `default/data`. -/
def claimData : PersistentVolumeClaim :=
  PersistentVolumeClaim.mk "default" "data" "" none none [] "Pending" 0

/-- A world with the nodes `node-a` and `node-b`, the pods `podsTwoNodes` and
the claim `default/data`; no metrics endpoint answers and there is no provider
client. -/
def worldTwoNodes : World :=
  World.mk "" (some [])
    (some [Node.mk "node-a" "aws:///eu-west-1a/i-0a", Node.mk "node-b" "aws:///eu-west-1b/i-0b"])
    (fun _ => none) (fun _ => none) (some podsTwoNodes) none (some [claimData]) 0 (fun _ l => l)

/-- The families of a document that reports 50 used bytes for `default/data`. -/
def famsUsedBytes : Families :=
  [("kubelet_volume_stats_used_bytes",
    [Metric.mk [LabelPair.mk "namespace" "default", LabelPair.mk "persistentvolumeclaim" "data"]
      (some (F64.ofInt 50)) none])]

/-- A world whose node `n1` fails the fetch of `/proxy/metrics` and answers
`/proxy/metrics/resource` with a document that parses to `famsUsedBytes`. -/
def worldPrimaryDown : World :=
  World.mk "" (some []) (some [Node.mk "n1" ""])
    (fun path => if path = "/api/v1/nodes/n1/proxy/metrics/resource" then some "doc" else none)
    (fun raw => if raw = "doc" then some famsUsedBytes else none)
    (some []) none (some []) 0 (fun _ l => l)

/-- A world whose node `n1` answers `/proxy/metrics` with a document that
parses to no family at all and `/proxy/metrics/resource` with a document that
parses to `famsUsedBytes`. -/
def worldFallback : World :=
  World.mk "" (some []) (some [Node.mk "n1" ""])
    (fun path =>
      if path = "/api/v1/nodes/n1/proxy/metrics" then some "empty"
      else if path = "/api/v1/nodes/n1/proxy/metrics/resource" then some "doc"
      else none)
    (fun raw => if raw = "doc" then some famsUsedBytes else if raw = "empty" then some [] else none)
    (some []) none (some []) 0 (fun _ l => l)

/-- A world whose node `n1` answers `/proxy/metrics` with a document that
parses to a `kubelet_volume_stats_used_bytes` family without samples. -/
def worldNoSamples : World :=
  World.mk "" (some []) (some [Node.mk "n1" ""])
    (fun path => if path = "/api/v1/nodes/n1/proxy/metrics" then some "doc" else none)
    (fun raw => if raw = "doc" then some [("kubelet_volume_stats_used_bytes", [])] else none)
    (some []) none (some []) 0 (fun _ l => l)

/-- A volume provisioned by a CSI driver whose handle holds no `vol-` identifier. -/
def pvForeignHandle : PersistentVolume :=
  PersistentVolume.mk "pv-efs" "efs-sc" (some (CSIPersistentVolumeSource.mk "fs-0123456789abcdef0"))
    none "Delete"

/-- The families of a document that reports NaN used bytes and a capacity of
one byte for `default/data`. -/
def famsNaN : Families :=
  [("kubelet_volume_stats_used_bytes",
    [Metric.mk [LabelPair.mk "namespace" "default", LabelPair.mk "persistentvolumeclaim" "data"]
      (some F64.nan) none]),
   ("kubelet_volume_stats_capacity_bytes",
    [Metric.mk [LabelPair.mk "namespace" "default", LabelPair.mk "persistentvolumeclaim" "data"]
      (some (F64.ofInt 1)) none])]

/-- A world whose node `n1` answers `/proxy/metrics` with a document that
parses to `famsNaN`, with the unbound claim `default/data`. -/
def worldNaN : World :=
  World.mk "" (some []) (some [Node.mk "n1" ""])
    (fun path => if path = "/api/v1/nodes/n1/proxy/metrics" then some "doc" else none)
    (fun raw => if raw = "doc" then some famsNaN else none)
    (some []) none (some [claimData]) 0 (fun _ l => l)

/-- Lookup tables with one usage aggregate for `default/data`: 50 bytes used
of 200, 1 inode used of 3. -/
def tablesUsage : Tables :=
  Tables.mk [] [("default/data", usage.mk (F64.ofInt 50) (F64.ofInt 200) (F64.ofInt 1) (F64.ofInt 3))]
    [] [] []

/-! ## Specification-side notions -/

/-- Two rows that agree in every column but AGE and NODE_ID, and whose NODE_ID
columns join the same instance ids, each as many times, possibly in another order. -/
def SameUpToAgeAndNodeOrder (r1 r2 : Row) : Prop :=
  r1.NAMESPACE = r2.NAMESPACE ∧ r1.PVC = r2.PVC ∧ r1.PV = r2.PV ∧ r1.CAP = r2.CAP ∧
  r1.SC = r2.SC ∧ r1.VOLUME_ID = r2.VOLUME_ID ∧ r1.VTYPE = r2.VTYPE ∧ r1.STATUS = r2.STATUS ∧
  r1.CAP_PCT = r2.CAP_PCT ∧ r1.IND_PCT = r2.IND_PCT ∧ r1.AM = r2.AM ∧ r1.RC = r2.RC ∧
  ∃ ids1 ids2 : List String, ids1.Perm ids2 ∧
    r1.NODE_ID = (if ids1 = [] then "-" else ",".intercalate ids1) ∧
    r2.NODE_ID = (if ids2 = [] then "-" else ",".intercalate ids2)


/-- The instance id the node→instance index gives a node name (empty when unknown). -/
def instanceOf (nodeToInstance : GoMap String) (nodeName : String) : String :=
  (nodeToInstance.lookup nodeName).getD ""

/-- A pod with an assigned node, in the namespace of the claim, one of whose
volumes references the claim. -/
def mountsClaim (pvc : PersistentVolumeClaim) (p : Pod) : Bool :=
  decide (p.NodeName ≠ "") && decide (p.Namespace = pvc.Namespace) &&
    decide (Volume.mk (some pvc.Name) ∈ p.Volumes)

/-- The distinct node names that host at least one pod mounting the claim. -/
def hostingNodes (pods : List Pod) (pvc : PersistentVolumeClaim) : List String :=
  ((pods.filter (mountsClaim pvc)).map (fun p => p.NodeName)).dedup


/-- An occurrence of `vol-` followed by one or more hexadecimal digits in `s`:
`s` is `pre`, the literal, the digits `hex`, then `post`. -/
def VolOccurrence (s pre hex post : List Char) : Prop :=
  s = pre ++ volLit ++ hex ++ post ∧ hex ≠ [] ∧ ∀ c ∈ hex, isHexDigit c = true

/-- The pod `p` has an assigned node `x` and a volume referencing a claim whose
key `namespace/claim-name` is `k`. -/
def Contributes (p : Pod) (k x : String) : Prop :=
  p.NodeName ≠ "" ∧ x = p.NodeName ∧
    ∃ cn, Volume.mk (some cn) ∈ p.Volumes ∧ p.Namespace ++ "/" ++ cn = k

/-- What a percentage column shows for the pair `used`, `total`: the
placeholder unless `total > 0`; otherwise the float `used / total * 100`
formatted by `%.1f`, which for a finite value is an optional minus sign, the
integer part, a point and one digit, the number of tenths `t` shown being
within half a tenth of the value, and for the other values is `NaN`, `+Inf` or
`-Inf`. -/
def PctRendering (used total : F64) (s : String) : Prop :=
  (total.gtZero = false → s = "-") ∧
  (total.gtZero = true →
    (F64.mul (F64.div used total) (F64.ofInt 100) = F64.nan → s = "NaN") ∧
    (∀ neg, F64.mul (F64.div used total) (F64.ofInt 100) = F64.inf neg →
      s = if neg then "-Inf" else "+Inf") ∧
    (∀ neg m e, F64.mul (F64.div used total) (F64.ofInt 100) = F64.fin neg m e →
      ∃ t : Nat,
        s = (if neg then "-" else "") ++ toString (t / 10) ++ "." ++ toString (t % 10) ∧
        t % 10 < 10 ∧
        2 * t * 2 ^ (-e).toNat ≤ 2 * (m * 10 * 2 ^ e.toNat) + 2 ^ (-e).toNat ∧
        2 * (m * 10 * 2 ^ e.toNat) ≤ 2 * t * 2 ^ (-e).toNat + 2 ^ (-e).toNat))

/-- The rendering the specification describes, on whole seconds, minutes and hours. -/
def humanizeAgeSpec (d : Int) : String :=
  if d < Minute then toString (d / Second) ++ "s"
  else
    let days := d / Hour / 24
    let hours := d / Hour % 24
    let mins := d / Minute % 60
    if days > 0 ∧ hours > 0 then toString days ++ "d" ++ toString hours ++ "h"
    else if days > 0 then toString days ++ "d"
    else if hours > 0 ∧ mins > 0 then toString hours ++ "h" ++ toString mins ++ "m"
    else if hours > 0 then toString hours ++ "h"
    else toString mins ++ "m"

/-! ## Lemmas -/

theorem string_eq_empty_iff (s : String) : s = "" ↔ s.data = [] := by
  constructor
  · intro h
    subst h
    rfl
  · intro h
    exact String.ext h

theorem dropLiteral_eq_some (lit s r : List Char) :
    dropLiteral lit s = some r ↔ s = lit ++ r := by
  induction lit generalizing s with
  | nil => simp [dropLiteral, eq_comm]
  | cons a lit ih =>
    cases s with
    | nil => simp [dropLiteral]
    | cons b s =>
      by_cases hab : a = b
      · subst hab
        simp [dropLiteral, ih]
      · have hba : ¬ b = a := fun h => hab h.symm
        simp [dropLiteral, hab, hba]

theorem head_dropWhile_not (p : Char → Bool) (l : List Char) (c : Char)
    (h : (l.dropWhile p).head? = some c) : p c = false := by
  induction l with
  | nil => simp at h
  | cons a l ih =>
    by_cases ha : p a = true
    · simp [List.dropWhile, ha] at h
      exact ih h
    · simp [List.dropWhile, ha] at h
      subst h
      simpa using ha

theorem volReMatchHere_some (s m : List Char) (h : volReMatchHere s = some m) :
    ∃ hex post, VolOccurrence s [] hex post ∧
      (∀ c, post.head? = some c → isHexDigit c = false) ∧ m = volLit ++ hex := by
  unfold volReMatchHere at h
  cases hd : dropLiteral volLit s with
  | none => simp [hd] at h
  | some rest =>
    rw [hd] at h
    cases ht : rest.takeWhile isHexDigit with
    | nil => simp [ht] at h
    | cons x xs =>
      simp only [ht, Option.some.injEq] at h
      refine ⟨rest.takeWhile isHexDigit, rest.dropWhile isHexDigit, ⟨?_, ?_, ?_⟩, ?_, ?_⟩
      · have := (dropLiteral_eq_some volLit s rest).1 hd
        rw [this]
        simp [List.append_assoc, List.takeWhile_append_dropWhile]
      · simp [ht]
      · intro c hc
        exact List.mem_takeWhile_imp hc
      · intro c hc
        exact head_dropWhile_not _ _ _ hc
      · rw [ht]
        exact h.symm

theorem volReMatchHere_none (s : List Char) (h : volReMatchHere s = none) :
    ¬ ∃ hex post, VolOccurrence s [] hex post := by
  rintro ⟨hex, post, hs, hne, hall⟩
  cases hex with
  | nil => exact hne rfl
  | cons x xs =>
    have hd : dropLiteral volLit s = some ((x :: xs) ++ post) := by
      rw [dropLiteral_eq_some]
      simpa [List.append_assoc] using hs
    have hx : isHexDigit x = true := hall x (List.mem_cons_self _ _)
    unfold volReMatchHere at h
    rw [hd] at h
    simp [List.takeWhile, hx] at h

theorem volReFindString_spec (s : List Char) :
    (volReFindString s = [] ∧ ¬ ∃ pre hex post, VolOccurrence s pre hex post) ∨
    (∃ pre hex post, VolOccurrence s pre hex post ∧
      (∀ c, post.head? = some c → isHexDigit c = false) ∧
      (∀ pre2 hex2 post2, VolOccurrence s pre2 hex2 post2 → pre.length ≤ pre2.length) ∧
      volReFindString s = volLit ++ hex) := by
  induction s with
  | nil =>
    left
    refine ⟨rfl, ?_⟩
    rintro ⟨pre, hex, post, hs, _, _⟩
    have := congrArg List.length hs
    simp [volLit] at this
    omega
  | cons c cs ih =>
    cases hm : volReMatchHere (c :: cs) with
    | some m =>
      right
      obtain ⟨hex, post, hocc, hpost, hm2⟩ := volReMatchHere_some _ _ hm
      refine ⟨[], hex, post, hocc, hpost, ?_, ?_⟩
      · intro _ _ _ _
        simp
      · simp [volReFindString, hm, hm2]
    | none =>
      have hnone := volReMatchHere_none _ hm
      have shift : ∀ pre hex post, VolOccurrence (c :: cs) pre hex post →
          ∃ pre1, pre = c :: pre1 ∧ VolOccurrence cs pre1 hex post := by
        intro pre hex post hocc
        cases pre with
        | nil => exact absurd ⟨hex, post, hocc⟩ hnone
        | cons a pre1 =>
          obtain ⟨hs, hne, hall⟩ := hocc
          simp only [List.cons_append, List.cons.injEq] at hs
          obtain ⟨hca, hcs⟩ := hs
          exact ⟨pre1, by rw [hca], hcs, hne, hall⟩
      have hfind : volReFindString (c :: cs) = volReFindString cs := by
        simp [volReFindString, hm]
      rcases ih with ⟨he, hno⟩ | ⟨pre, hex, post, hocc, hpost, hleft, hres⟩
      · left
        refine ⟨by rw [hfind, he], ?_⟩
        rintro ⟨pre, hex, post, hocc⟩
        obtain ⟨pre1, _, hocc1⟩ := shift pre hex post hocc
        exact hno ⟨pre1, hex, post, hocc1⟩
      · right
        refine ⟨c :: pre, hex, post, ?_, hpost, ?_, by rw [hfind, hres]⟩
        · obtain ⟨hs, hne, hall⟩ := hocc
          exact ⟨by simp [hs], hne, hall⟩
        · intro pre2 hex2 post2 hocc2
          obtain ⟨pre1, hp, hocc1⟩ := shift pre2 hex2 post2 hocc2
          subst hp
          simpa using hleft pre1 hex2 post2 hocc1

theorem stringsSplit_last (sep : Char) (l : List Char) :
    ∃ front r, stringsSplit sep l = front ++ [r] ∧ sep ∉ r ∧
      (front = [] → l = r) ∧ (front ≠ [] → ∃ pre, l = pre ++ sep :: r) := by
  induction l with
  | nil => exact ⟨[], [], rfl, by simp, fun _ => rfl, fun h => absurd rfl h⟩
  | cons c cs ih =>
    obtain ⟨front, r, hsplit, hr, h1, h2⟩ := ih
    by_cases hc : c = sep
    · refine ⟨[] :: front, r, by simp [stringsSplit, hc, hsplit], hr, by simp, fun _ => ?_⟩
      by_cases hf : front = []
      · exact ⟨[], by simp [hc, h1 hf]⟩
      · obtain ⟨pre, hpre⟩ := h2 hf
        exact ⟨c :: pre, by simp [hpre]⟩
    · cases front with
      | nil =>
        refine ⟨[], c :: r, by simp [stringsSplit, hc, hsplit], ?_, fun _ => by rw [h1 rfl],
          fun h => absurd rfl h⟩
        simp only [List.mem_cons, not_or]
        exact ⟨fun h => hc h.symm, hr⟩
      | cons p ps =>
        refine ⟨(c :: p) :: ps, r, by simp [stringsSplit, hc, hsplit], hr, by simp, fun _ => ?_⟩
        obtain ⟨pre, hpre⟩ := h2 (by simp)
        exact ⟨c :: pre, by simp [hpre]⟩

theorem rowLoop_snoc (t : Tables) (now : Int) (ro : Nat → List String → List String)
    (xs : List PersistentVolumeClaim) (x : PersistentVolumeClaim) :
    rowLoop t now ro (xs ++ [x]) =
      rowLoop t now ro xs ++ [mkRow t now (ro (rowLoop t now ro xs).length) x] := by
  simp [rowLoop, List.foldl_append]

theorem rowLoop_length (t : Tables) (now : Int) (ro : Nat → List String → List String)
    (items : List PersistentVolumeClaim) : (rowLoop t now ro items).length = items.length := by
  induction items using List.reverseRecOn with
  | nil => rfl
  | append_singleton xs x ih => simp [rowLoop_snoc, ih]

theorem rowLoop_getElem? (t : Tables) (now : Int) (ro : Nat → List String → List String)
    (items : List PersistentVolumeClaim) (i : Nat) :
    (rowLoop t now ro items)[i]? = (items[i]?).map (mkRow t now (ro i)) := by
  induction items using List.reverseRecOn with
  | nil => simp [rowLoop]
  | append_singleton xs x ih =>
    rw [rowLoop_snoc]
    have hlen := rowLoop_length t now ro xs
    rcases Nat.lt_trichotomy i xs.length with h | h | h
    · rw [List.getElem?_append_left (by omega), List.getElem?_append_left h, ih]
    · subst h
      rw [List.getElem?_append_right (by omega), List.getElem?_append_right (le_refl _)]
      simp [hlen]
    · rw [List.getElem?_append_right (by omega), List.getElem?_append_right (by omega)]
      have h1 : i - (rowLoop t now ro xs).length = (i - xs.length - 1) + 1 := by omega
      have h2 : i - xs.length = (i - xs.length - 1) + 1 := by omega
      rw [h1, h2]
      simp

theorem mkRow_NAMESPACE (t : Tables) (now : Int) (o : List String → List String)
    (pvc : PersistentVolumeClaim) : (mkRow t now o pvc).NAMESPACE = pvc.Namespace := by
  unfold mkRow
  dsimp only
  cases List.lookup pvc.VolumeName t.pvIndex <;> rfl

theorem mkRow_PVC (t : Tables) (now : Int) (o : List String → List String)
    (pvc : PersistentVolumeClaim) : (mkRow t now o pvc).PVC = pvc.Name := by
  unfold mkRow
  dsimp only
  cases List.lookup pvc.VolumeName t.pvIndex <;> rfl

theorem mkRow_VOLUME_ID (t : Tables) (now : Int) (o : List String → List String)
    (pvc : PersistentVolumeClaim) :
    (mkRow t now o pvc).VOLUME_ID = rowVolID (t.pvIndex.lookup pvc.VolumeName) := by
  unfold mkRow
  dsimp only
  cases List.lookup pvc.VolumeName t.pvIndex <;> rfl

theorem mkRow_VTYPE (t : Tables) (now : Int) (o : List String → List String)
    (pvc : PersistentVolumeClaim) :
    (mkRow t now o pvc).VTYPE = rowVType t.volType (rowVolID (t.pvIndex.lookup pvc.VolumeName)) := by
  unfold mkRow
  dsimp only
  cases List.lookup pvc.VolumeName t.pvIndex <;> rfl

theorem mkRow_NODE_ID (t : Tables) (now : Int) (o : List String → List String)
    (pvc : PersistentVolumeClaim) :
    (mkRow t now o pvc).NODE_ID = rowNodeIDs t o (pvc.Namespace ++ "/" ++ pvc.Name) := by
  unfold mkRow
  dsimp only
  cases List.lookup pvc.VolumeName t.pvIndex <;> rfl

theorem mkRow_CAP_PCT (t : Tables) (now : Int) (o : List String → List String)
    (pvc : PersistentVolumeClaim) :
    (mkRow t now o pvc).CAP_PCT = rowCapPct t.usageByPVC (pvc.Namespace ++ "/" ++ pvc.Name) := by
  unfold mkRow
  dsimp only
  cases List.lookup pvc.VolumeName t.pvIndex <;> rfl

theorem mkRow_IND_PCT (t : Tables) (now : Int) (o : List String → List String)
    (pvc : PersistentVolumeClaim) :
    (mkRow t now o pvc).IND_PCT = rowInodePct t.usageByPVC (pvc.Namespace ++ "/" ++ pvc.Name) := by
  unfold mkRow
  dsimp only
  cases List.lookup pvc.VolumeName t.pvIndex <;> rfl

theorem rowVolID_no_identifier (pv : PersistentVolume)
    (hcsi : ∀ csi, pv.CSI = some csi → csi.VolumeHandle = "")
    (hebs : ∀ ebs, pv.AWSElasticBlockStore = some ebs → ebs.VolumeID = "") :
    rowVolID (some pv) = "" := by
  obtain ⟨name, sc, csi, ebs, policy⟩ := pv
  have hn : normalizeVolID "" = "" := rfl
  cases csi with
  | none =>
    cases ebs with
    | none => rfl
    | some e =>
      have he : e.VolumeID = "" := hebs e rfl
      simp [rowVolID, he, hn]
  | some c =>
    have hc : c.VolumeHandle = "" := hcsi c rfl
    cases ebs with
    | none => simp [rowVolID, hc]
    | some e =>
      have he : e.VolumeID = "" := hebs e rfl
      simp [rowVolID, hc, he, hn]

/-- The node set stored under a key after `addNode` (empty when the key is absent). -/
theorem lookup_addNode (m : GoMap (List String)) (k n k2 : String) :
    ((addNode m k n).lookup k2).getD [] =
      if k2 = k then
        (if n ∈ (m.lookup k).getD [] then (m.lookup k).getD [] else (m.lookup k).getD [] ++ [n])
      else (m.lookup k2).getD [] := by
  by_cases h : k2 = k
  · subst h
    simp [addNode, List.lookup_cons]
  · have hb : (k2 == k) = false := by simpa using h
    simp [addNode, List.lookup_cons, hb, h]

theorem addNode_mem (m : GoMap (List String)) (k n k2 x : String) :
    x ∈ ((addNode m k n).lookup k2).getD [] ↔
      x ∈ (m.lookup k2).getD [] ∨ (k2 = k ∧ x = n) := by
  rw [lookup_addNode]
  by_cases h : k2 = k
  · subst h
    by_cases hn : n ∈ (m.lookup k2).getD []
    · simp only [hn, if_true, true_and]
      constructor
      · intro hx
        exact Or.inl hx
      · rintro (hx | hx)
        · exact hx
        · rw [hx]
          exact hn
    · simp [hn]
  · simp [h]

theorem addNode_nodup (m : GoMap (List String)) (k n k2 : String)
    (h : ((m.lookup k2).getD []).Nodup) : (((addNode m k n).lookup k2).getD []).Nodup := by
  rw [lookup_addNode]
  by_cases hk : k2 = k
  · subst hk
    by_cases hn : n ∈ (m.lookup k2).getD []
    · simpa [hn] using h
    · simp only [hn, if_false, if_true]
      exact List.Nodup.append h (List.nodup_singleton n) (by simpa using hn)
  · simpa [hk] using h

/-- The fold over the volumes of one pod, as `addPod` runs it. -/
theorem foldVolumes_spec (ns node : String) (vols : List Volume) (acc : GoMap (List String))
    (k : String) :
    let res := vols.foldl (fun acc v =>
      match v.PersistentVolumeClaim with
      | none => acc
      | some claimName => addNode acc (ns ++ "/" ++ claimName) node) acc
    ((((acc.lookup k).getD []).Nodup → ((res.lookup k).getD []).Nodup) ∧
      ∀ x, x ∈ (res.lookup k).getD [] ↔
        x ∈ (acc.lookup k).getD [] ∨
          (x = node ∧ ∃ cn, Volume.mk (some cn) ∈ vols ∧ ns ++ "/" ++ cn = k)) := by
  induction vols generalizing acc with
  | nil => simp
  | cons v vs ih =>
    obtain ⟨pc⟩ := v
    cases pc with
    | none =>
      have := ih acc
      simp only [List.foldl_cons] at this ⊢
      refine ⟨this.1, fun x => ?_⟩
      rw [this.2 x]
      simp
    | some cn0 =>
      have := ih (addNode acc (ns ++ "/" ++ cn0) node)
      simp only [List.foldl_cons] at this ⊢
      refine ⟨fun h => this.1 (addNode_nodup _ _ _ _ h), fun x => ?_⟩
      rw [this.2 x, addNode_mem]
      constructor
      · rintro ((h | ⟨hk, hx⟩) | ⟨hx, cn, hcn, hk⟩)
        · exact Or.inl h
        · exact Or.inr ⟨hx, cn0, by simp, hk.symm⟩
        · exact Or.inr ⟨hx, cn, by simp [hcn], hk⟩
      · rintro (h | ⟨hx, cn, hcn, hk⟩)
        · exact Or.inl (Or.inl h)
        · simp only [List.mem_cons, Volume.mk.injEq, Option.some.injEq] at hcn
          rcases hcn with hcn | hcn
          · subst hcn
            exact Or.inl (Or.inr ⟨hk.symm, hx⟩)
          · exact Or.inr ⟨hx, cn, hcn, hk⟩

theorem addPod_spec (p : Pod) (acc : GoMap (List String)) (k : String) :
    ((((acc.lookup k).getD []).Nodup → (((addPod acc p).lookup k).getD []).Nodup) ∧
      ∀ x, x ∈ ((addPod acc p).lookup k).getD [] ↔
        x ∈ (acc.lookup k).getD [] ∨ Contributes p k x) := by
  unfold addPod Contributes
  by_cases hn : p.NodeName = ""
  · simp [hn]
  · have := foldVolumes_spec p.Namespace p.NodeName p.Volumes acc k
    simp only [hn, if_false]
    refine ⟨this.1, fun x => ?_⟩
    rw [this.2 x]
    simp [hn]

theorem foldPods_spec (pods : List Pod) (acc : GoMap (List String)) (k : String) :
    ((((acc.lookup k).getD []).Nodup → (((pods.foldl addPod acc).lookup k).getD []).Nodup) ∧
      ∀ x, x ∈ ((pods.foldl addPod acc).lookup k).getD [] ↔
        x ∈ (acc.lookup k).getD [] ∨ ∃ p ∈ pods, Contributes p k x) := by
  induction pods generalizing acc with
  | nil => simp
  | cons p ps ih =>
    have h1 := addPod_spec p acc k
    have h2 := ih (addPod acc p)
    simp only [List.foldl_cons]
    refine ⟨fun h => h2.1 (h1.1 h), fun x => ?_⟩
    rw [h2.2 x, h1.2 x]
    simp only [List.mem_cons, exists_eq_or_imp]
    tauto

theorem key_injective (a b c d : String) (ha : '/' ∉ a.data) (hc : '/' ∉ c.data)
    (h : a ++ "/" ++ b = c ++ "/" ++ d) : a = c ∧ b = d := by
  have hl : a.data ++ '/' :: b.data = c.data ++ '/' :: d.data := by
    have := congrArg String.data h
    simpa [String.data_append] using this
  have main : ∀ (x y u v : List Char), '/' ∉ x → '/' ∉ y →
      x ++ '/' :: u = y ++ '/' :: v → x = y ∧ u = v := by
    intro x
    induction x with
    | nil =>
      intro y u v _ hy hxy
      cases y with
      | nil => simpa using hxy
      | cons e y =>
        simp only [List.nil_append, List.cons_append, List.cons.injEq] at hxy
        exact absurd (hxy.1 ▸ List.mem_cons_self _ _) hy
    | cons e x ih =>
      intro y u v hx hy hxy
      cases y with
      | nil =>
        simp only [List.nil_append, List.cons_append, List.cons.injEq] at hxy
        exact absurd (hxy.1 ▸ List.mem_cons_self _ _) hx
      | cons f y =>
        simp only [List.cons_append, List.cons.injEq] at hxy
        simp only [List.mem_cons, not_or] at hx hy
        obtain ⟨h1, h2⟩ := ih y u v hx.2 hy.2 hxy.2
        exact ⟨by rw [hxy.1, h1], h2⟩
  obtain ⟨h1, h2⟩ := main _ _ _ _ ha hc hl
  exact ⟨String.ext h1, String.ext h2⟩

theorem mem_hostingNodes (pods : List Pod) (pvc : PersistentVolumeClaim)
    (hns : '/' ∉ pvc.Namespace.data) (hpns : ∀ p ∈ pods, '/' ∉ p.Namespace.data) (x : String) :
    x ∈ hostingNodes pods pvc ↔
      ∃ p ∈ pods, Contributes p (pvc.Namespace ++ "/" ++ pvc.Name) x := by
  simp only [hostingNodes, List.mem_dedup, List.mem_map, List.mem_filter, mountsClaim,
    Bool.and_eq_true, decide_eq_true_eq, Contributes]
  constructor
  · rintro ⟨p, ⟨hp, ⟨hn, hsame⟩, hv⟩, hx⟩
    exact ⟨p, hp, hn, hx.symm, pvc.Name, hv, by rw [hsame]⟩
  · rintro ⟨p, hp, hn, hx, cn, hv, hk⟩
    obtain ⟨h1, h2⟩ := key_injective _ _ _ _ (hpns p hp) hns hk
    subst h2
    exact ⟨p, ⟨hp, ⟨hn, h1⟩, hv⟩, hx.symm⟩

theorem rowInstanceIDs_eq (nodeToInstance : GoMap String) (order : List String → List String)
    (nodesSet : List String) :
    rowInstanceIDs nodeToInstance order nodesSet =
      ((order nodesSet).map (instanceOf nodeToInstance)).filter (fun iid => decide (iid ≠ "")) := by
  unfold rowInstanceIDs
  have gen : ∀ (l acc : List String),
      l.foldl (fun ids nodeName =>
        let iid := (nodeToInstance.lookup nodeName).getD ""
        if iid ≠ "" then ids ++ [iid] else ids) acc =
      acc ++ (l.map (instanceOf nodeToInstance)).filter (fun iid => decide (iid ≠ "")) := by
    intro l
    induction l with
    | nil => simp
    | cons a l ih =>
      intro acc
      simp only [List.foldl_cons, List.map_cons]
      rw [ih]
      by_cases h : (nodeToInstance.lookup a).getD "" = ""
      · simp [instanceOf, h]
      · simp [instanceOf, h, List.filter_cons]
  simpa using gen (order nodesSet) []

theorem rowNodeIDs_eq (t : Tables) (order : List String → List String) (key : String)
    (hnil : order [] = []) :
    rowNodeIDs t order key =
      (let ids := ((order ((t.pvcToNodes.lookup key).getD [])).map
          (instanceOf t.nodeToInstance)).filter (fun iid => decide (iid ≠ ""))
       if ids = [] then "-" else ",".intercalate ids) := by
  unfold rowNodeIDs
  cases h : t.pvcToNodes.lookup key with
  | none => simp [hnil]
  | some nodesSet =>
    simp only [Option.getD_some, rowInstanceIDs_eq]
    cases nodesSet with
    | nil => simp [hnil]
    | cons a l =>
      simp only [List.length_cons, gt_iff_lt, Nat.zero_lt_succ, if_true]
      generalize ((order (a :: l)).map (instanceOf t.nodeToInstance)).filter
        (fun iid => decide (iid ≠ "")) = ids
      cases ids with
      | nil => simp
      | cons b ids => simp

theorem mkRow_eq (t : Tables) (now : Int) (o : List String → List String)
    (pvc : PersistentVolumeClaim) :
    mkRow t now o pvc =
      Row.mk pvc.Namespace pvc.Name
        (match t.pvIndex.lookup pvc.VolumeName with
          | some pvObj => pvObj.Name
          | none => "(none)")
        (pvc.StorageRequest.getD "-") (rowSC pvc (t.pvIndex.lookup pvc.VolumeName))
        (rowVolID (t.pvIndex.lookup pvc.VolumeName))
        (rowVType t.volType (rowVolID (t.pvIndex.lookup pvc.VolumeName)))
        (rowNodeIDs t o (pvc.Namespace ++ "/" ++ pvc.Name)) pvc.Phase
        (rowCapPct t.usageByPVC (pvc.Namespace ++ "/" ++ pvc.Name))
        (rowInodePct t.usageByPVC (pvc.Namespace ++ "/" ++ pvc.Name))
        (accessModesShort pvc.AccessModes) (rowReclaim (t.pvIndex.lookup pvc.VolumeName))
        (humanizeAge (timeSub now pvc.CreationTimestamp)) := by
  unfold mkRow
  dsimp only
  cases List.lookup pvc.VolumeName t.pvIndex <;> rfl

theorem mkRow_same (t : Tables) (now1 now2 : Int) (o1 o2 : List String → List String)
    (h1 : ∀ l, (o1 l).Perm l) (h2 : ∀ l, (o2 l).Perm l) (pvc : PersistentVolumeClaim) :
    SameUpToAgeAndNodeOrder (mkRow t now1 o1 pvc) (mkRow t now2 o2 pvc) := by
  rw [mkRow_eq, mkRow_eq]
  refine ⟨rfl, rfl, rfl, rfl, rfl, rfl, rfl, rfl, rfl, rfl, rfl, rfl, _, _, ?_,
    rowNodeIDs_eq t o1 _ (List.Perm.eq_nil (h1 [])), rowNodeIDs_eq t o2 _ (List.Perm.eq_nil (h2 []))⟩
  exact ((((h1 _).trans (h2 _).symm).map _).filter _)

theorem rowLoop_same (t : Tables) (now1 now2 : Int) (ro1 ro2 : Nat → List String → List String)
    (h1 : ∀ i l, (ro1 i l).Perm l) (h2 : ∀ i l, (ro2 i l).Perm l)
    (items : List PersistentVolumeClaim) :
    List.Forall₂ SameUpToAgeAndNodeOrder (rowLoop t now1 ro1 items) (rowLoop t now2 ro2 items) := by
  induction items using List.reverseRecOn with
  | nil => exact List.Forall₂.nil
  | append_singleton xs x ih =>
    rw [rowLoop_snoc, rowLoop_snoc]
    exact List.rel_append ih
      (List.Forall₂.cons (mkRow_same t now1 now2 _ _ (h1 _) (h2 _) x) List.Forall₂.nil)

theorem divRoundEven_near (n d : Nat) (hd : 0 < d) :
    2 * divRoundEven n d * d ≤ 2 * n + d ∧ 2 * n ≤ 2 * divRoundEven n d * d + d := by
  have hdm := Nat.div_add_mod n d
  have hlt := Nat.mod_lt n hd
  have hmul : 2 * (n / d) * d = 2 * (d * (n / d)) := by ring
  have hmul1 : 2 * (n / d + 1) * d = 2 * (d * (n / d)) + 2 * d := by ring
  unfold divRoundEven
  dsimp only
  split
  · rename_i h
    rw [hmul1]
    constructor
    · rcases h with h | ⟨h, _⟩ <;> omega
    · omega
  · rename_i h
    rw [hmul]
    have : ¬ 2 * (n % d) > d := fun hgt => h (Or.inl hgt)
    constructor <;> omega

theorem bitLen_spec (fuel n : Nat) (h : n ≤ fuel) :
    n < 2 ^ bitLen fuel n ∧ (0 < n → 2 ^ (bitLen fuel n - 1) ≤ n) := by
  induction fuel generalizing n with
  | zero =>
    have : n = 0 := by omega
    subst this
    simp [bitLen]
  | succ fuel ih =>
    by_cases hn : n = 0
    · subst hn
      simp [bitLen]
    · have hhalf : n / 2 ≤ fuel := by omega
      obtain ⟨h1, h2⟩ := ih (n / 2) hhalf
      simp only [bitLen, hn, if_false]
      constructor
      · have : n < 2 * 2 ^ bitLen fuel (n / 2) := by omega
        rw [Nat.add_comm, pow_succ]
        omega
      · intro _
        simp only [Nat.add_sub_cancel_left]
        by_cases hz : n / 2 = 0
        · have hb : bitLen fuel (n / 2) = 0 := by
            rw [hz]
            cases fuel <;> simp [bitLen]
          rw [hb]
          simp
          omega
        · have h3 := h2 (by omega)
          have hpos : 0 < bitLen fuel (n / 2) := by
            rcases Nat.eq_zero_or_pos (bitLen fuel (n / 2)) with h0 | h0
            · rw [h0] at h1
              simp at h1
              exact absurd h1 hz
            · exact h0
          have : 2 ^ bitLen fuel (n / 2) = 2 * 2 ^ (bitLen fuel (n / 2) - 1) := by
            rw [← pow_succ']
            congr 1
            omega
          omega

theorem zpow_toNat_split (e : Int) :
    ((2 : ℚ) ^ e.toNat) / (2 : ℚ) ^ (-e).toNat = (2 : ℚ) ^ e := by
  rcases le_or_lt 0 e with h | h
  · have h1 : (-e).toNat = 0 := by omega
    have h2 : ((e.toNat : ℕ) : ℤ) = e := Int.toNat_of_nonneg h
    have h3 : (2 : ℚ) ^ e.toNat = (2 : ℚ) ^ e := by rw [← zpow_natCast, h2]
    rw [h1, h3]
    simp
  · have h1 : e.toNat = 0 := by omega
    have h2 : (((-e).toNat : ℕ) : ℤ) = -e := Int.toNat_of_nonneg (by omega)
    have h3 : (2 : ℚ) ^ (-e).toNat = (2 : ℚ) ^ (-e) := by rw [← zpow_natCast, h2]
    rw [h1, h3, pow_zero, zpow_neg, one_div, inv_inv]

theorem divRoundEven_rat (n d : Nat) (hd : 0 < d) :
    |((divRoundEven n d : ℕ) : ℚ) - (n : ℚ) / d| ≤ 1 / 2 := by
  obtain ⟨h1, h2⟩ := divRoundEven_near n d hd
  have hdq : (0 : ℚ) < d := by exact_mod_cast hd
  have h1q : (2 : ℚ) * divRoundEven n d * d ≤ 2 * n + d := by exact_mod_cast h1
  have h2q : (2 : ℚ) * n ≤ 2 * divRoundEven n d * d + d := by exact_mod_cast h2
  rw [abs_le]
  constructor
  · have : (n : ℚ) / d ≤ divRoundEven n d + 1 / 2 := by
      rw [div_le_iff₀ hdq]
      linarith
    linarith
  · have : (divRoundEven n d : ℚ) - 1 / 2 ≤ (n : ℚ) / d := by
      rw [le_div_iff₀ hdq]
      linarith
    linarith

/-- The exponent of the last place `F64.round` chooses is bounded by the size of the value. -/
theorem round_val (n d : Nat) (hn : 0 < n) (hd : 0 < d) (K : Int) (hK : K ≤ 1000)
    (hx : (n : ℚ) / d < (2 : ℚ) ^ K) :
    ∃ (m : Nat) (e g : Int) (z : Nat), F64.round false n d = F64.fin false m e ∧
      g ≤ max (K - 53) (-1074) ∧ (m : ℚ) * (2 : ℚ) ^ e = z * (2 : ℚ) ^ g ∧
      |(z : ℚ) * (2 : ℚ) ^ g - (n : ℚ) / d| ≤ (2 : ℚ) ^ g / 2 := by
  have hdq : (0 : ℚ) < d := by exact_mod_cast hd
  have hnq : (0 : ℚ) < n := by exact_mod_cast hn
  -- the code's estimate of the binary logarithm
  obtain ⟨k, hkdef, hklow⟩ : ∃ k : Int,
      k = (if d * 2 ^ ((bitLen n n : Int) - (bitLen d d : Int)).toNat ≤
              n * 2 ^ (-((bitLen n n : Int) - (bitLen d d : Int))).toNat
            then (bitLen n n : Int) - (bitLen d d : Int)
            else (bitLen n n : Int) - (bitLen d d : Int) - 1) ∧
      (2 : ℚ) ^ k ≤ (n : ℚ) / d := by
    refine ⟨_, rfl, ?_⟩
    split
    · rename_i h
      have hq : (d : ℚ) * 2 ^ ((bitLen n n : Int) - (bitLen d d : Int)).toNat ≤
          n * 2 ^ (-((bitLen n n : Int) - (bitLen d d : Int))).toNat := by exact_mod_cast h
      rw [← zpow_toNat_split, div_le_div_iff₀ (by positivity) hdq]
      linarith
    · obtain ⟨_, hn2⟩ := bitLen_spec n n (le_refl _)
      obtain ⟨hd1, _⟩ := bitLen_spec d d (le_refl _)
      have hn3 := hn2 hn
      have hbn : 0 < bitLen n n := by
        rcases Nat.eq_zero_or_pos (bitLen n n) with h0 | h0
        · have := (bitLen_spec n n (le_refl _)).1
          rw [h0] at this
          simp at this
          omega
        · exact h0
      have e1 : ((bitLen n n : Int) - (bitLen d d : Int) - 1) =
          ((bitLen n n - 1 : ℕ) : Int) - (bitLen d d : Int) := by omega
      rw [e1, zpow_sub₀ (by norm_num), zpow_natCast, zpow_natCast,
        div_le_div_iff₀ (by positivity) hdq]
      have hn3q : ((2 : ℚ)) ^ (bitLen n n - 1) ≤ n := by exact_mod_cast hn3
      have hd1q : (d : ℚ) ≤ (2 : ℚ) ^ (bitLen d d) := by exact_mod_cast hd1.le
      calc (2 : ℚ) ^ (bitLen n n - 1) * d ≤ n * d := by
            exact mul_le_mul_of_nonneg_right hn3q hdq.le
        _ ≤ n * (2 : ℚ) ^ (bitLen d d) := by
            exact mul_le_mul_of_nonneg_left hd1q hnq.le
  have hkK : k + 1 ≤ K := by
    have : (2 : ℚ) ^ k < (2 : ℚ) ^ K := lt_of_le_of_lt hklow hx
    have := (zpow_lt_zpow_iff_right₀ (by norm_num : (1 : ℚ) < 2)).1 this
    omega
  have hg : max (k - 52) (-1074) ≤ max (K - 53) (-1074) := max_le_max (by omega) (le_refl _)
  have hg2 : max (K - 53) (-1074) ≤ 947 := max_le (by omega) (by omega)
  generalize hgdef : max (k - 52) (-1074) = g at hg
  have hDpos : 0 < d * 2 ^ g.toNat := Nat.mul_pos hd (Nat.pos_pow_of_pos _ (by decide))
  have hround := divRoundEven_rat (n * 2 ^ (-g).toNat) (d * 2 ^ g.toNat) hDpos
  have hscale : ((n * 2 ^ (-g).toNat : ℕ) : ℚ) / ((d * 2 ^ g.toNat : ℕ) : ℚ) * (2 : ℚ) ^ g =
      (n : ℚ) / d := by
    rw [← zpow_toNat_split g]
    push_cast
    field_simp
    ring
  have hgpos : (0 : ℚ) < (2 : ℚ) ^ g := by positivity
  have herr : |((divRoundEven (n * 2 ^ (-g).toNat) (d * 2 ^ g.toNat) : ℕ) : ℚ) * (2 : ℚ) ^ g -
      (n : ℚ) / d| ≤ (2 : ℚ) ^ g / 2 := by
    rw [← hscale, ← sub_mul, abs_mul, abs_of_pos hgpos]
    calc _ ≤ 1 / 2 * (2 : ℚ) ^ g := mul_le_mul_of_nonneg_right hround hgpos.le
      _ = (2 : ℚ) ^ g / 2 := by ring
  unfold F64.round
  simp only [hn.ne', if_false]
  rw [← hkdef, hgdef]
  by_cases hm : divRoundEven (n * 2 ^ (-g).toNat) (d * 2 ^ g.toNat) = 2 ^ 53
  · refine ⟨2 ^ 52, g + 1, g, divRoundEven (n * 2 ^ (-g).toNat) (d * 2 ^ g.toNat), ?_, hg, ?_, herr⟩
    · have : ¬ g + 1 > 971 := by omega
      simp only [hm, if_true, this, if_false]
    · rw [hm, zpow_add₀ (by norm_num)]
      push_cast
      ring
  · refine ⟨_, g, g, divRoundEven (n * 2 ^ (-g).toNat) (d * 2 ^ g.toNat), ?_, hg, rfl, herr⟩
    have : ¬ g > 971 := by omega
    simp only [hm, if_false, this]

/-- Truncation of a finite float whose value lies in `[q, q + 1)`. -/
theorem toInt_floor (m : Nat) (e : Int) (q : Nat) (hlo : (q : ℚ) ≤ (m : ℚ) * (2 : ℚ) ^ e)
    (hhi : (m : ℚ) * (2 : ℚ) ^ e < q + 1) : (F64.fin false m e).toInt = q := by
  have hD : (0 : ℚ) < (2 : ℚ) ^ (-e).toNat := by positivity
  have hval : (m : ℚ) * (2 : ℚ) ^ e = ((m * 2 ^ e.toNat : ℕ) : ℚ) / ((2 ^ (-e).toNat : ℕ) : ℚ) := by
    rw [← zpow_toNat_split e]
    push_cast
    ring
  rw [hval] at hlo hhi
  have h1 : q * 2 ^ (-e).toNat ≤ m * 2 ^ e.toNat := by
    have := (le_div_iff₀ (by exact_mod_cast hD)).1 hlo
    exact_mod_cast this
  have h2 : m * 2 ^ e.toNat < (q + 1) * 2 ^ (-e).toNat := by
    have := (div_lt_iff₀ (by exact_mod_cast hD)).1 hhi
    exact_mod_cast this
  have hdiv : m * 2 ^ e.toNat / 2 ^ (-e).toNat = q := by
    apply Nat.div_eq_of_lt_le
    · exact h1
    · exact h2
  simp [F64.toInt, hdiv]

theorem grid_ge (g : Int) (hg : g ≤ 0) (z q : Nat)
    (h : (q : ℚ) - (2 : ℚ) ^ g / 2 ≤ (z : ℚ) * (2 : ℚ) ^ g) : (q : ℚ) ≤ (z : ℚ) * (2 : ℚ) ^ g := by
  have hgpos : (0 : ℚ) < (2 : ℚ) ^ g := by positivity
  have hw : ((q * 2 ^ (-g).toNat : ℕ) : ℚ) * (2 : ℚ) ^ g = q := by
    have h1 : g.toNat = 0 := by omega
    have := zpow_toNat_split g
    rw [h1, pow_zero] at this
    rw [← this]
    push_cast
    field_simp
  have hlt : ((q * 2 ^ (-g).toNat : ℕ) : ℚ) < (z : ℚ) + 1 := by
    by_contra hcon
    push_neg at hcon
    have : ((z : ℚ) + 1) * (2 : ℚ) ^ g ≤ ((q * 2 ^ (-g).toNat : ℕ) : ℚ) * (2 : ℚ) ^ g :=
      mul_le_mul_of_nonneg_right hcon hgpos.le
    rw [hw] at this
    linarith
  have hle : q * 2 ^ (-g).toNat ≤ z := by
    have : q * 2 ^ (-g).toNat < z + 1 := by exact_mod_cast hlt
    omega
  rw [← hw]
  exact mul_le_mul_of_nonneg_right (by exact_mod_cast hle) hgpos.le

theorem grid_eq (g : Int) (hg : g ≤ 0) (z q : Nat)
    (h : |(z : ℚ) * (2 : ℚ) ^ g - q| ≤ (2 : ℚ) ^ g / 2) : (z : ℚ) * (2 : ℚ) ^ g = q := by
  have hgpos : (0 : ℚ) < (2 : ℚ) ^ g := by positivity
  obtain ⟨h1, h2⟩ := abs_le.1 h
  have hge := grid_ge g hg z q (by linarith)
  have hw : ((q * 2 ^ (-g).toNat : ℕ) : ℚ) * (2 : ℚ) ^ g = q := by
    have h1 : g.toNat = 0 := by omega
    have := zpow_toNat_split g
    rw [h1, pow_zero] at this
    rw [← this]
    push_cast
    field_simp
  have hlt : (z : ℚ) < ((q * 2 ^ (-g).toNat : ℕ) : ℚ) + 1 := by
    by_contra hcon
    push_neg at hcon
    have : (((q * 2 ^ (-g).toNat : ℕ) : ℚ) + 1) * (2 : ℚ) ^ g ≤ (z : ℚ) * (2 : ℚ) ^ g :=
      mul_le_mul_of_nonneg_right hcon hgpos.le
    rw [add_mul, hw] at this
    linarith
  have hle : z ≤ q * 2 ^ (-g).toNat := by
    have : z < q * 2 ^ (-g).toNat + 1 := by exact_mod_cast hlt
    omega
  apply le_antisymm _ hge
  rw [← hw]
  exact mul_le_mul_of_nonneg_right (by exact_mod_cast hle) hgpos.le

/-- An integer below `2^53` converts to a float of the same value. -/
theorem ofInt_val (q : Nat) (hq : q < 2 ^ 53) :
    ∃ (m : Nat) (e : Int), F64.ofInt (q : Int) = F64.fin false m e ∧ (m : ℚ) * (2 : ℚ) ^ e = q := by
  by_cases h0 : q = 0
  · subst h0
    exact ⟨0, 0, by simp [F64.ofInt, F64.round], by simp⟩
  · have hpos : 0 < q := Nat.pos_of_ne_zero h0
    have hx : ((q : ℕ) : ℚ) / ((1 : ℕ) : ℚ) < (2 : ℚ) ^ (53 : Int) := by
      have h53 : (2 : ℚ) ^ (53 : Int) = (2 : ℚ) ^ (53 : ℕ) := by norm_num
      have : (q : ℚ) < (2 : ℚ) ^ (53 : ℕ) := by exact_mod_cast hq
      rw [h53]
      simpa using this
    obtain ⟨m, e, g, z, hr, hg, hv, herr⟩ := round_val q 1 hpos (by decide) 53 (by decide) hx
    have hg0 : g ≤ 0 := le_trans hg (by decide)
    refine ⟨m, e, ?_, ?_⟩
    · have hneg : decide ((q : Int) < 0) = false := by simp
      simp only [F64.ofInt, hneg, Int.natAbs_ofNat]
      exact hr
    · rw [hv]
      apply grid_eq g hg0
      simpa using herr

theorem add_val (m1 : Nat) (e1 : Int) (m2 : Nat) (e2 : Int) (hpos : 0 < m1 ∨ 0 < m2) :
    ∃ N D : Nat, F64.add (F64.fin false m1 e1) (F64.fin false m2 e2) = F64.round false N D ∧
      0 < N ∧ 0 < D ∧ (N : ℚ) / D = (m1 : ℚ) * (2 : ℚ) ^ e1 + (m2 : ℚ) * (2 : ℚ) ^ e2 := by
  have hsum : 0 < m1 * 2 ^ (e1 - min e1 e2).toNat + m2 * 2 ^ (e2 - min e1 e2).toNat := by
    rcases hpos with h | h
    · exact Nat.add_pos_left (Nat.mul_pos h (Nat.pos_pow_of_pos _ (by decide))) _
    · exact Nat.add_pos_right _ (Nat.mul_pos h (Nat.pos_pow_of_pos _ (by decide)))
  refine ⟨(m1 * 2 ^ (e1 - min e1 e2).toNat + m2 * 2 ^ (e2 - min e1 e2).toNat) *
      2 ^ (min e1 e2).toNat, 2 ^ (-(min e1 e2)).toNat, ?_, ?_, ?_, ?_⟩
  · have hs : ((1 : Int) * ((m1 * 2 ^ (e1 - min e1 e2).toNat : ℕ) : Int) +
        (1 : Int) * ((m2 * 2 ^ (e2 - min e1 e2).toNat : ℕ) : Int)) =
        ((m1 * 2 ^ (e1 - min e1 e2).toNat + m2 * 2 ^ (e2 - min e1 e2).toNat : ℕ) : Int) := by
      push_cast
      ring
    have hne : ¬ ((m1 * 2 ^ (e1 - min e1 e2).toNat + m2 * 2 ^ (e2 - min e1 e2).toNat : ℕ) : Int)
        = 0 := by
      exact_mod_cast hsum.ne'
    have hnn : ¬ ((m1 * 2 ^ (e1 - min e1 e2).toNat + m2 * 2 ^ (e2 - min e1 e2).toNat : ℕ) : Int)
        < 0 := by
      exact not_lt.2 (Int.natCast_nonneg _)
    simp only [F64.add, Bool.false_eq_true, if_false, hs, hne, hnn, decide_False,
      Int.natAbs_ofNat]
  · exact Nat.mul_pos hsum (Nat.pos_pow_of_pos _ (by decide))
  · exact Nat.pos_pow_of_pos _ (by decide)
  · have hg := zpow_toNat_split (min e1 e2)
    have h1 : (2 : ℚ) ^ (e1 - min e1 e2).toNat = (2 : ℚ) ^ (e1 - min e1 e2) := by
      rw [← zpow_natCast, Int.toNat_of_nonneg (by have := min_le_left e1 e2; omega)]
    have h2 : (2 : ℚ) ^ (e2 - min e1 e2).toNat = (2 : ℚ) ^ (e2 - min e1 e2) := by
      rw [← zpow_natCast, Int.toNat_of_nonneg (by have := min_le_right e1 e2; omega)]
    have e1s : (2 : ℚ) ^ e1 = (2 : ℚ) ^ (e1 - min e1 e2) * (2 : ℚ) ^ (min e1 e2) := by
      rw [← zpow_add₀ (by norm_num : (2 : ℚ) ≠ 0)]
      congr 1
      ring
    have e2s : (2 : ℚ) ^ e2 = (2 : ℚ) ^ (e2 - min e1 e2) * (2 : ℚ) ^ (min e1 e2) := by
      rw [← zpow_add₀ (by norm_num : (2 : ℚ) ≠ 0)]
      congr 1
      ring
    rw [e1s, e2s, ← hg, ← h1, ← h2]
    push_cast
    field_simp
    ring

theorem div_val (m : Nat) (e : Int) (n : Nat) (f : Int) (hm : 0 < m) (hn : 0 < n) :
    ∃ N D : Nat, F64.div (F64.fin false m e) (F64.fin false n f) = F64.round false N D ∧
      0 < N ∧ 0 < D ∧ (N : ℚ) / D = ((m : ℚ) * (2 : ℚ) ^ e) / ((n : ℚ) * (2 : ℚ) ^ f) := by
  refine ⟨m * 2 ^ (e - f).toNat, n * 2 ^ (f - e).toNat, ?_, ?_, ?_, ?_⟩
  · simp [F64.div, hn.ne']
  · exact Nat.mul_pos hm (Nat.pos_pow_of_pos _ (by decide))
  · exact Nat.mul_pos hn (Nat.pos_pow_of_pos _ (by decide))
  · have h := zpow_toNat_split (e - f)
    rw [neg_sub] at h
    have hn0 : (n : ℚ) ≠ 0 := by exact_mod_cast hn.ne'
    rw [zpow_sub₀ (by norm_num : (2 : ℚ) ≠ 0)] at h
    push_cast
    have h2 : (2 : ℚ) ^ (f - e).toNat ≠ 0 := by positivity
    have h3 : (2 : ℚ) ^ f ≠ 0 := by positivity
    field_simp
    field_simp at h
    linear_combination (m : ℚ) * (n : ℚ) * h

/-- The float quotient of two integers `r < c` below `2^53` is at most
`r / c + 2^-54`. -/
theorem div_ofInt_val (r c : Nat) (hc : 0 < c) (hc53 : c < 2 ^ 53) (hr : r < c) :
    ∃ (m : Nat) (e : Int),
      F64.div (F64.ofInt (r : Int)) (F64.ofInt (c : Int)) = F64.fin false m e ∧
      (m : ℚ) * (2 : ℚ) ^ e ≤ (r : ℚ) / c + (2 : ℚ) ^ (-54 : Int) := by
  have hcq : (0 : ℚ) < c := by exact_mod_cast hc
  obtain ⟨mc, ec, hcF, hcv⟩ := ofInt_val c hc53
  obtain ⟨mr, er, hrF, hrv⟩ := ofInt_val r (lt_trans hr hc53)
  have hmc : 0 < mc := by
    rcases Nat.eq_zero_or_pos mc with h | h
    · rw [h] at hcv
      simp at hcv
      exact absurd hcv.symm hcq.ne'
    · exact h
  rw [hcF, hrF]
  rcases Nat.eq_zero_or_pos mr with h | h
  · subst h
    refine ⟨0, 0, by simp [F64.div, hmc.ne', F64.round], ?_⟩
    have : (0 : ℚ) ≤ (r : ℚ) / c := by positivity
    have h2 : (0 : ℚ) < (2 : ℚ) ^ (-54 : Int) := by positivity
    simp only [Nat.cast_zero, zero_mul]
    linarith
  · obtain ⟨N, D, hdiv, hN, hD, hratio⟩ := div_val mr er mc ec h hmc
    rw [hrv, hcv] at hratio
    have hx : (N : ℚ) / D < (2 : ℚ) ^ (0 : Int) := by
      rw [hratio, zpow_zero, div_lt_one hcq]
      exact_mod_cast hr
    obtain ⟨m, e, g, z, hround, hg, hv, herr⟩ := round_val N D hN hD 0 (by decide) hx
    refine ⟨m, e, by rw [hdiv, hround], ?_⟩
    have hg53 : g ≤ -53 := le_trans hg (by decide)
    have hpow : (2 : ℚ) ^ g ≤ (2 : ℚ) ^ (-53 : Int) :=
      zpow_le_zpow_right₀ (by norm_num) hg53
    have hhalf : (2 : ℚ) ^ (-53 : Int) / 2 = (2 : ℚ) ^ (-54 : Int) := by
      rw [show (-53 : Int) = -54 + 1 from rfl, zpow_add₀ (by norm_num)]
      simp
    have hb : (2 : ℚ) ^ g / 2 ≤ (2 : ℚ) ^ (-54 : Int) := by
      rw [← hhalf]
      exact div_le_div_of_nonneg_right hpow (by norm_num)
    rw [hv]
    have := (abs_le.1 herr).2
    rw [hratio] at this
    linarith

/-- Truncating `float64(q) + float64(r) / float64(c)` gives `q` when `q` is
below `2^Q` and `1 / c` exceeds the rounding errors of the quotient and the sum. -/
theorem floorSum (q r c Q : Nat) (hc : 0 < c) (hc53 : c < 2 ^ 53) (hr : r < c)
    (hq : q < 2 ^ Q) (hQ : Q ≤ 53)
    (hmargin : (2 : ℚ) ^ (-54 : Int) + (2 : ℚ) ^ ((Q : Int) - 54) < 1 / (c : ℚ)) :
    (F64.add (F64.ofInt (q : Int)) (F64.div (F64.ofInt (r : Int)) (F64.ofInt (c : Int)))).toInt =
      (q : Int) := by
  have hcq : (0 : ℚ) < c := by exact_mod_cast hc
  obtain ⟨m2, e2, hdiv, hR⟩ := div_ofInt_val r c hc hc53 hr
  have hq53 : q < 2 ^ 53 := lt_of_lt_of_le hq (Nat.pow_le_pow_right (by decide) hQ)
  obtain ⟨m1, e1, hqF, hqv⟩ := ofInt_val q hq53
  have hR0 : (0 : ℚ) ≤ (m2 : ℚ) * (2 : ℚ) ^ e2 := by positivity
  have hrc : (r : ℚ) / c ≤ 1 - 1 / (c : ℚ) := by
    have h1 : (r : ℚ) + 1 ≤ c := by exact_mod_cast hr
    rw [div_le_iff₀ hcq]
    field_simp
    linarith
  rw [hdiv, hqF]
  by_cases hz : m1 = 0 ∧ m2 = 0
  · obtain ⟨h1, h2⟩ := hz
    subst h1
    subst h2
    have hq0 : q = 0 := by
      simp at hqv
      exact_mod_cast hqv.symm
    subst hq0
    simp [F64.add, F64.toInt]
  · have hpos : 0 < m1 ∨ 0 < m2 := by
      by_contra hcon
      push_neg at hcon
      exact hz ⟨by omega, by omega⟩
    obtain ⟨N, D, hadd, hN, hD, hratio⟩ := add_val m1 e1 m2 e2 hpos
    rw [hqv] at hratio
    have hq1 : (q : ℚ) + 1 ≤ (2 : ℚ) ^ (Q : Int) := by
      rw [zpow_natCast]
      exact_mod_cast hq
    have h54 : (0 : ℚ) < (2 : ℚ) ^ ((Q : Int) - 54) := by positivity
    have hx : (N : ℚ) / D < (2 : ℚ) ^ (Q : Int) := by
      rw [hratio]
      linarith
    obtain ⟨m, e, g, z, hround, hg, hv, herr⟩ := round_val N D hN hD Q (by omega) hx
    have hgQ : g ≤ (Q : Int) - 53 := le_trans hg (max_le (le_refl _) (by omega))
    have hg0 : g ≤ 0 := by omega
    have hpow : (2 : ℚ) ^ g ≤ (2 : ℚ) ^ ((Q : Int) - 53) :=
      zpow_le_zpow_right₀ (by norm_num) hgQ
    have hhalf : (2 : ℚ) ^ ((Q : Int) - 53) / 2 = (2 : ℚ) ^ ((Q : Int) - 54) := by
      rw [show (Q : Int) - 53 = ((Q : Int) - 54) + 1 by ring, zpow_add₀ (by norm_num)]
      simp
    have hb : (2 : ℚ) ^ g / 2 ≤ (2 : ℚ) ^ ((Q : Int) - 54) := by
      rw [← hhalf]
      exact div_le_div_of_nonneg_right hpow (by norm_num)
    rw [hratio] at herr
    obtain ⟨hlo, hhi⟩ := abs_le.1 herr
    rw [hadd, hround]
    have key := toInt_floor m e q
      (by rw [hv]; exact grid_ge g hg0 z q (by linarith))
      (by rw [hv]; linarith)
    exact key

/-- Truncating the float count of a unit of `c` nanoseconds gives the whole
count, for ages whose whole count is below `2^Q`. -/
theorem unitCount_toInt (d c : Int) (Q : Nat) (h0 : 0 ≤ d) (hc : 0 < c) (hc53 : c < 2 ^ 53)
    (hq : d / c < 2 ^ Q) (hQ : Q ≤ 53)
    (hmargin : (2 : ℚ) ^ (-54 : Int) + (2 : ℚ) ^ ((Q : Int) - 54) < 1 / ((c : Int) : ℚ)) :
    (F64.add (F64.ofInt (d.tdiv c)) (F64.div (F64.ofInt (d.tmod c)) (F64.ofInt c))).toInt =
      d / c := by
  obtain ⟨n, rfl⟩ := Int.eq_ofNat_of_zero_le h0
  obtain ⟨k, rfl⟩ := Int.eq_ofNat_of_zero_le hc.le
  have hk : 0 < k := by exact_mod_cast hc
  have hk53 : k < 2 ^ 53 := by exact_mod_cast hc53
  have hqn : n / k < 2 ^ Q := by exact_mod_cast hq
  rw [← Int.ofNat_tdiv, ← Int.ofNat_tmod, ← Int.ofNat_ediv]
  exact floorSum (n / k) (n % k) k Q hk hk53 (Nat.mod_lt _ hk) hqn hQ (by simpa using hmargin)

theorem Seconds_toInt (d : Int) (h0 : 0 ≤ d) (h : d < Minute) :
    (Duration.Seconds d).toInt = d / Second := by
  have hq : d / Second < 2 ^ 6 := by
    have : d / Second < 60 := Int.ediv_lt_of_lt_mul (by decide) (by simpa [Minute] using h)
    omega
  exact unitCount_toInt d 1000000000 6 h0 (by decide) (by decide) hq (by decide) (by norm_num)

theorem Minutes_toInt (d : Int) (h0 : 0 ≤ d) (h : d < 4096 * Hour) :
    (Duration.Minutes d).toInt = d / Minute := by
  have hq : d / Minute < 2 ^ 18 := by
    have : d / Minute < 245760 :=
      Int.ediv_lt_of_lt_mul (by decide) (by simpa [Minute, Hour, Second] using h)
    omega
  exact unitCount_toInt d 60000000000 18 h0 (by decide) (by decide) hq (by decide) (by norm_num)

theorem Hours_toInt (d : Int) (h0 : 0 ≤ d) (h : d < 4096 * Hour) :
    (Duration.Hours d).toInt = d / Hour := by
  have hq : d / Hour < 2 ^ 12 := by
    have : d / Hour < 4096 := Int.ediv_lt_of_lt_mul (by decide) (by simpa using h)
    omega
  exact unitCount_toInt d 3600000000000 12 h0 (by decide) (by decide) hq (by decide) (by norm_num)

theorem pctColumn_rendering (used total : F64) : PctRendering used total (pctColumn used total) := by
  unfold PctRendering pctColumn
  refine ⟨fun h => by simp [h], fun h => ?_⟩
  simp only [h, if_true]
  refine ⟨fun hp => by rw [hp]; rfl, fun neg hp => by rw [hp]; rfl, fun neg m e hp => ?_⟩
  rw [hp]
  refine ⟨divRoundEven (m * 10 * 2 ^ e.toNat) (2 ^ (-e).toNat), rfl, Nat.mod_lt _ (by decide), ?_⟩
  exact divRoundEven_near _ _ (Nat.pos_pow_of_pos _ (by decide))

theorem collectVolIDs_fold (items : List PersistentVolume) (acc : List String) :
    let res := items.foldl (fun allVolIDs pv =>
      let id := extractVolumeID pv
      if id ≠ "" then (if id ∈ allVolIDs then allVolIDs else allVolIDs ++ [id])
      else allVolIDs) acc
    (acc.Nodup → res.Nodup) ∧
      ∀ id, id ∈ res ↔ id ∈ acc ∨ (id ≠ "" ∧ ∃ pv ∈ items, extractVolumeID pv = id) := by
  induction items generalizing acc with
  | nil => simp
  | cons pv pvs ih =>
    simp only [List.foldl_cons]
    by_cases he : extractVolumeID pv = ""
    · have := ih acc
      simp only [he, ne_eq, not_true_eq_false, if_false] at this ⊢
      refine ⟨this.1, fun id => ?_⟩
      rw [this.2 id]
      constructor
      · rintro (h | ⟨hne, q, hq, hqe⟩)
        · exact Or.inl h
        · exact Or.inr ⟨hne, q, List.mem_cons_of_mem _ hq, hqe⟩
      · rintro (h | ⟨hne, q, hq, hqe⟩)
        · exact Or.inl h
        · rcases List.mem_cons.1 hq with hq | hq
          · subst hq
            exact absurd (hqe.symm.trans he) hne
          · exact Or.inr ⟨hne, q, hq, hqe⟩
    · by_cases hm : extractVolumeID pv ∈ acc
      · have := ih acc
        simp only [he, ne_eq, not_false_eq_true, if_true, hm] at this ⊢
        refine ⟨this.1, fun id => ?_⟩
        rw [this.2 id]
        constructor
        · rintro (h | ⟨hne, q, hq, hqe⟩)
          · exact Or.inl h
          · exact Or.inr ⟨hne, q, List.mem_cons_of_mem _ hq, hqe⟩
        · rintro (h | ⟨hne, q, hq, hqe⟩)
          · exact Or.inl h
          · rcases List.mem_cons.1 hq with hq | hq
            · subst hq
              rw [← hqe]
              exact Or.inl hm
            · exact Or.inr ⟨hne, q, hq, hqe⟩
      · have := ih (acc ++ [extractVolumeID pv])
        simp only [he, ne_eq, not_false_eq_true, if_true, hm, if_false] at this ⊢
        refine ⟨fun h => this.1 (List.Nodup.append h (List.nodup_singleton _) (by simpa using hm)),
          fun id => ?_⟩
        rw [this.2 id]
        simp only [List.mem_append, List.mem_singleton]
        constructor
        · rintro ((h | h) | ⟨hne, q, hq, hqe⟩)
          · exact Or.inl h
          · exact Or.inr ⟨by rw [h]; exact he, pv, List.mem_cons_self _ _, h.symm⟩
          · exact Or.inr ⟨hne, q, List.mem_cons_of_mem _ hq, hqe⟩
        · rintro (h | ⟨hne, q, hq, hqe⟩)
          · exact Or.inl (Or.inl h)
          · rcases List.mem_cons.1 hq with hq | hq
            · subst hq
              exact Or.inl (Or.inr hqe.symm)
            · exact Or.inr ⟨hne, q, hq, hqe⟩

theorem describeLoop_fuel (describe : List String → Option (List EC2Volume)) (fuel1 fuel2 : Nat)
    (ids : List String) (volType : GoMap String) (h1 : ids.length ≤ fuel1)
    (h2 : ids.length ≤ fuel2) :
    describeLoop describe fuel1 ids volType = describeLoop describe fuel2 ids volType := by
  induction fuel1 generalizing fuel2 ids volType with
  | zero =>
    have hnil : ids = [] := List.length_eq_zero.1 (by omega)
    subst hnil
    cases fuel2 <;> simp [describeLoop]
  | succ fuel1 ih =>
    cases ids with
    | nil => cases fuel2 <;> simp [describeLoop]
    | cons a l =>
      cases fuel2 with
      | zero => simp at h2
      | succ fuel2 =>
        have hd : ((a :: l).drop 200).length ≤ l.length := by
          simp only [List.length_drop, List.length_cons]
          omega
        simp only [List.length_cons] at h1 h2
        simp only [describeLoop, List.length_cons, Nat.succ_ne_zero, if_false]
        exact ih fuel2 _ _ (by omega) (by omega)

/-- One more node in the scrape loop: a skipped node leaves the aggregates as
they were, any other node has the families chosen for it aggregated. -/
theorem scrapeAll_snoc (w : World) (nodes : List Node) (n : Node) :
    scrapeAll w (nodes ++ [n]) =
      match (scrapeNode w n).2 with
      | none => scrapeAll w nodes
      | some fams => aggregateFamilies w.nsFilter fams (scrapeAll w nodes) := by
  simp only [scrapeAll, List.foldl_append, List.foldl_cons, List.foldl_nil]

/-! ## Claims -/

set_option maxRecDepth 8000

/-- C1: the row loop of `listRun` emits exactly one row per claim, in the order
of the claim list, whatever the lookup tables hold: the number of rows is the
number of claims, and the NAMESPACE and PVC columns of the row of index `i` are
the namespace and the name of the claim of index `i`.  The rows `listRun`
prints are those of this loop over the listed claims. -/
theorem rowLoop_one_row_per_claim (t : Tables) (now : Int)
    (ro : Nat → List String → List String) (items : List PersistentVolumeClaim) :
    (rowLoop t now ro items).length = items.length ∧
    (∀ i : Nat, ((rowLoop t now ro items)[i]?).map (fun r : Row => (r.NAMESPACE, r.PVC)) =
      (items[i]?).map (fun c : PersistentVolumeClaim => (c.Namespace, c.Name))) ∧
    (∀ (w : World) (rows : List Row), listRun w = Except.ok rows →
      ∃ claims, w.listPVCs = some claims ∧ rows.length = claims.length ∧
        ∀ i : Nat, (rows[i]?).map (fun r : Row => (r.NAMESPACE, r.PVC)) =
          (claims[i]?).map (fun c : PersistentVolumeClaim => (c.Namespace, c.Name))) := by
  have key : ∀ (t : Tables) (now : Int) (ro : Nat → List String → List String)
      (items : List PersistentVolumeClaim) (i : Nat),
      ((rowLoop t now ro items)[i]?).map (fun r : Row => (r.NAMESPACE, r.PVC)) =
        (items[i]?).map (fun c : PersistentVolumeClaim => (c.Namespace, c.Name)) := by
    intro t now ro items i
    rw [rowLoop_getElem?]
    cases items[i]? with
    | none => rfl
    | some c => simp [mkRow_NAMESPACE, mkRow_PVC]
  refine ⟨rowLoop_length t now ro items, key t now ro items, ?_⟩
  intro w rows hrun
  unfold listRun at hrun
  cases hpv : w.listPVs with
  | none => simp [hpv] at hrun
  | some pvItems =>
    cases hn : w.listNodes with
    | none => simp [hpv, hn] at hrun
    | some nodes =>
      cases hc : w.listPVCs with
      | none => simp [hpv, hn, hc] at hrun
      | some claims =>
        simp only [hpv, hn, hc, Except.ok.injEq] at hrun
        subst hrun
        exact ⟨claims, rfl, rowLoop_length _ _ _ _, key _ _ _ _⟩

/-- C2: `normalizeVolID` returns the leftmost occurrence of `vol-` followed by
hexadecimal digits, extended over all the digits that follow, whatever
surrounds it; a string with no such occurrence is returned unchanged; the empty
string gives the empty string. -/
theorem normalizeVolID_spec (s : String) :
    ((∃ pre hex post, VolOccurrence s.data pre hex post) →
      ∃ pre hex post, VolOccurrence s.data pre hex post ∧
        (∀ c, post.head? = some c → isHexDigit c = false) ∧
        (∀ pre2 hex2 post2, VolOccurrence s.data pre2 hex2 post2 → pre.length ≤ pre2.length) ∧
        normalizeVolID s = String.mk (volLit ++ hex)) ∧
    ((¬ ∃ pre hex post, VolOccurrence s.data pre hex post) → normalizeVolID s = s) ∧
    normalizeVolID "" = "" ∧
    normalizeVolID "aws://eu-west-1a/vol-0A1b2c3d/x" = "vol-0A1b2c3d" := by
  refine ⟨?_, ?_, rfl, by decide⟩
  · rintro ⟨pre0, hex0, post0, hocc0⟩
    rcases volReFindString_spec s.data with ⟨_, hno⟩ | ⟨pre, hex, post, hocc, hpost, hleft, hres⟩
    · exact absurd ⟨pre0, hex0, post0, hocc0⟩ hno
    · refine ⟨pre, hex, post, hocc, hpost, hleft, ?_⟩
      have hne : ¬ s = "" := by
        rw [string_eq_empty_iff]
        intro h
        have := congrArg List.length hocc.1
        simp [h, volLit] at this
        omega
      have hm : ¬ String.mk (volLit ++ hex) = "" := by
        rw [string_eq_empty_iff]
        simp [volLit]
      simp [normalizeVolID, hne, hres, hm]
  · intro hno
    rcases volReFindString_spec s.data with ⟨he, _⟩ | ⟨pre, hex, post, hocc, _⟩
    · by_cases hs : s = ""
      · simp [normalizeVolID, hs]
      · have : String.mk ([] : List Char) = "" := rfl
        simp [normalizeVolID, hs, he, this]
    · exact absurd ⟨pre, hex, post, hocc⟩ hno

/-- C3 (as stated, refuted): the claim `default/data` is bound to the volume
`pv-1` of the index, which has neither a CSI handle nor a legacy EBS id, and
has no usage aggregate; the VOLUME_ID column of its row is the empty string,
not the placeholder. -/
theorem volume_id_placeholder_counterexample :
    listRun worldNoIdentifier =
      Except.ok [Row.mk "default" "data" "pv-1" "1Gi" "gp3" "" "-" "-" "Bound" "-" "-" "RWO"
        "Delete" "0s"] ∧
    ("" : String) ≠ "-" := by
  constructor
  · rfl
  · decide

/-- C3 (amended): for a claim bound to a volume of the index that has neither a
CSI handle nor a legacy EBS id, and with no usage aggregate, the row has an
empty VOLUME_ID, and VTYPE, CAP% and IND% are the placeholder `-`. -/
theorem row_without_identifier_or_usage (t : Tables) (now : Int)
    (ro : Nat → List String → List String) (items : List PersistentVolumeClaim) (i : Nat)
    (pvc : PersistentVolumeClaim) (pv : PersistentVolume)
    (hi : items[i]? = some pvc)
    (hpv : t.pvIndex.lookup pvc.VolumeName = some pv)
    (hcsi : ∀ csi, pv.CSI = some csi → csi.VolumeHandle = "")
    (hebs : ∀ ebs, pv.AWSElasticBlockStore = some ebs → ebs.VolumeID = "")
    (hu : t.usageByPVC.lookup (pvc.Namespace ++ "/" ++ pvc.Name) = none) :
    ∃ r, (rowLoop t now ro items)[i]? = some r ∧
      r.VOLUME_ID = "" ∧ r.VTYPE = "-" ∧ r.CAP_PCT = "-" ∧ r.IND_PCT = "-" := by
  refine ⟨mkRow t now (ro i) pvc, by simp [rowLoop_getElem?, hi], ?_, ?_, ?_, ?_⟩
  · rw [mkRow_VOLUME_ID, hpv, rowVolID_no_identifier pv hcsi hebs]
  · rw [mkRow_VTYPE, hpv, rowVolID_no_identifier pv hcsi hebs]
    simp [rowVType]
  · rw [mkRow_CAP_PCT]
    simp [rowCapPct, hu]
  · rw [mkRow_IND_PCT]
    simp [rowInodePct, hu]

/-- C10: `instanceIDFromProviderID` returns the final segment of the provider
identifier between slashes, as it is: the result holds no slash, and the
identifier is the result itself or ends with a slash followed by the result;
the empty identifier gives the empty string. -/
theorem instanceIDFromProviderID_spec (pid : String) :
    '/' ∉ (instanceIDFromProviderID pid).data ∧
    (pid = instanceIDFromProviderID pid ∨
      ∃ pre, pid.data = pre ++ '/' :: (instanceIDFromProviderID pid).data) ∧
    instanceIDFromProviderID "" = "" ∧
    instanceIDFromProviderID "aws:///eu-west-1a/i-0123456789abcdef0" = "i-0123456789abcdef0" := by
  have key : instanceIDFromProviderID pid =
      String.mk ((stringsSplit '/' pid.data).getD ((stringsSplit '/' pid.data).length - 1) []) := by
    by_cases h : pid = ""
    · subst h
      rfl
    · simp [instanceIDFromProviderID, h]
  obtain ⟨front, r, hsplit, hr, h1, h2⟩ := stringsSplit_last '/' pid.data
  have hlast : instanceIDFromProviderID pid = String.mk r := by
    rw [key, hsplit]
    simp
  refine ⟨by rw [hlast]; exact hr, ?_, rfl, by decide⟩
  rw [hlast]
  by_cases hf : front = []
  · left
    exact String.ext (h1 hf)
  · right
    exact h2 hf

/-- C3 (amended), at a concrete input: the claim `default/data` bound to `pv-1`. -/
theorem row_without_identifier_or_usage_witness :
    ∃ r, (rowLoop tablesNoIdentifier 0 (fun _ l => l)
        [PersistentVolumeClaim.mk "default" "data" "pv-1" (some "1Gi") none ["ReadWriteOnce"]
          "Bound" 0])[0]? = some r ∧
      r.VOLUME_ID = "" ∧ r.VTYPE = "-" ∧ r.CAP_PCT = "-" ∧ r.IND_PCT = "-" :=
  row_without_identifier_or_usage tablesNoIdentifier 0 (fun _ l => l) _ 0
    (PersistentVolumeClaim.mk "default" "data" "pv-1" (some "1Gi") none ["ReadWriteOnce"] "Bound" 0)
    (PersistentVolume.mk "pv-1" "gp3" none none "Delete")
    rfl rfl (fun _ h => by cases h) (fun _ h => by cases h) rfl

/-- C6: the entries of NODE_ID are the non-empty instance ids of the distinct
nodes hosting a pod (with an assigned node, in the namespace of the claim) that
references the claim, one entry a node, joined with commas in the order the
node set is visited; NODE_ID is `-` when there is no entry.  Namespaces are
Kubernetes names and hold no slash. -/
theorem node_id_entries (t : Tables) (pods : List Pod) (now : Int)
    (ro : Nat → List String → List String) (items : List PersistentVolumeClaim) (i : Nat)
    (pvc : PersistentVolumeClaim)
    (hpods : t.pvcToNodes = buildPvcToNodes (some pods))
    (hro : ∀ l, (ro i l).Perm l)
    (hns : '/' ∉ pvc.Namespace.data) (hpns : ∀ p ∈ pods, '/' ∉ p.Namespace.data)
    (hi : items[i]? = some pvc) :
    ∃ r ids, (rowLoop t now ro items)[i]? = some r ∧
      ids.Perm (((hostingNodes pods pvc).map (instanceOf t.nodeToInstance)).filter
        (fun iid => decide (iid ≠ ""))) ∧
      r.NODE_ID = if ids = [] then "-" else ",".intercalate ids := by
  have hnil : ro i [] = [] := List.Perm.eq_nil (hro [])
  have hfold := foldPods_spec pods [] (pvc.Namespace ++ "/" ++ pvc.Name)
  have hnd : ((t.pvcToNodes.lookup (pvc.Namespace ++ "/" ++ pvc.Name)).getD []).Nodup := by
    rw [hpods]
    exact hfold.1 (by simp)
  have hperm : ((t.pvcToNodes.lookup (pvc.Namespace ++ "/" ++ pvc.Name)).getD []).Perm
      (hostingNodes pods pvc) := by
    have hnd2 : (hostingNodes pods pvc).Nodup := by
      unfold hostingNodes
      exact List.nodup_dedup _
    rw [List.perm_ext_iff_of_nodup hnd hnd2]
    intro x
    rw [mem_hostingNodes pods pvc hns hpns x, hpods]
    have := hfold.2 x
    simpa [buildPvcToNodes] using this
  refine ⟨mkRow t now (ro i) pvc, _, by simp [rowLoop_getElem?, hi], ?_,
    by rw [mkRow_NODE_ID, rowNodeIDs_eq t (ro i) _ hnil]⟩
  exact (((hro _).trans hperm).map _).filter _

/-- C6, at a concrete input: two pods on `node-a` and one on `node-b` mount
`default/data`; the row lists each of the two instance ids once. -/
theorem node_id_entries_witness :
    (rowLoop tablesTwoNodes 0 (fun _ l => l) [claimData]).map (fun r : Row => r.NODE_ID) =
      ["i-0a,i-0b"] ∧
    ∃ r ids, (rowLoop tablesTwoNodes 0 (fun _ l => l) [claimData])[0]? = some r ∧
      ids.Perm (((hostingNodes podsTwoNodes claimData).map
        (instanceOf tablesTwoNodes.nodeToInstance)).filter (fun iid => decide (iid ≠ ""))) ∧
      r.NODE_ID = if ids = [] then "-" else ",".intercalate ids :=
  ⟨by rfl, node_id_entries tablesTwoNodes podsTwoNodes 0 (fun _ l => l) [claimData] 0 claimData rfl
    (fun l => List.Perm.refl l) (by decide) (by decide) rfl⟩

/-- C7 (as stated, refuted): two runs over the state `worldTwoNodes`, one
visiting node sets in insertion order and one in the reverse order (both are
iteration orders of the set), print different NODE_ID columns for the claim
mounted on two nodes. -/
theorem node_id_order_counterexample :
    (∀ (i : Nat) (l : List String), ((fun (_ : Nat) (l : List String) => l) i l).Perm l) ∧
    (∀ (i : Nat) (l : List String), ((fun (_ : Nat) (l : List String) => l.reverse) i l).Perm l) ∧
    listRun (worldTwoNodes.rerun 0 (fun _ l => l)) =
      Except.ok [Row.mk "default" "data" "(none)" "-" "" "" "-" "i-0a,i-0b" "Pending" "-" "-" "-"
        "-" "0s"] ∧
    listRun (worldTwoNodes.rerun 0 (fun _ l => l.reverse)) =
      Except.ok [Row.mk "default" "data" "(none)" "-" "" "" "-" "i-0b,i-0a" "Pending" "-" "-" "-"
        "-" "0s"] := by
  refine ⟨fun _ l => List.Perm.refl l, fun _ l => List.reverse_perm l, ?_, ?_⟩
  · rfl
  · rfl

/-- C7 (amended): two runs of `listRun` over the same cluster and provider
state fail with the same message or print rows that agree, claim by claim, in
every column other than AGE and NODE_ID; the NODE_ID columns of the two runs
join the same instance ids, each as many times, possibly in a different order. -/
theorem listRun_deterministic_up_to_node_order (w : World) (now1 now2 : Int)
    (ro1 ro2 : Nat → List String → List String)
    (h1 : ∀ i l, (ro1 i l).Perm l) (h2 : ∀ i l, (ro2 i l).Perm l) :
    match listRun (w.rerun now1 ro1), listRun (w.rerun now2 ro2) with
    | Except.ok rows1, Except.ok rows2 => List.Forall₂ SameUpToAgeAndNodeOrder rows1 rows2
    | Except.error e1, Except.error e2 => e1 = e2
    | _, _ => False := by
  obtain ⟨ns, pvs, nodes, getRaw, parse, pods, describe, pvcs, now, ro⟩ := w
  cases pvs with
  | none => simp [listRun, World.rerun]
  | some pvItems =>
    cases nodes with
    | none => simp [listRun, World.rerun]
    | some nodeItems =>
      cases pvcs with
      | none => simp [listRun, World.rerun]
      | some items =>
        simp only [listRun, World.rerun]
        exact rowLoop_same _ now1 now2 ro1 ro2 h1 h2 items

/-- C7 (amended), at a concrete input: the two runs of the counterexample. -/
theorem listRun_deterministic_up_to_node_order_witness :
    match listRun (worldTwoNodes.rerun 0 (fun _ l => l)),
      listRun (worldTwoNodes.rerun 5 (fun _ l => l.reverse)) with
    | Except.ok rows1, Except.ok rows2 => List.Forall₂ SameUpToAgeAndNodeOrder rows1 rows2
    | Except.error e1, Except.error e2 => e1 = e2
    | _, _ => False :=
  listRun_deterministic_up_to_node_order worldTwoNodes 0 5 (fun _ l => l) (fun _ l => l.reverse)
    (fun _ l => List.Perm.refl l) (fun _ l => List.reverse_perm l)

/-- C4 (as stated, refuted): the fetch of `/proxy/metrics` of node `n1` fails
while `/proxy/metrics/resource` would answer a document with the
`kubelet_volume_stats_used_bytes` family; the only path requested is the
primary one and the node contributes nothing. -/
theorem fallback_skipped_counterexample :
    worldPrimaryDown.getRaw "/api/v1/nodes/n1/proxy/metrics" = none ∧
    worldPrimaryDown.getRaw "/api/v1/nodes/n1/proxy/metrics/resource" = some "doc" ∧
    parseFamilies worldPrimaryDown "doc" = some famsUsedBytes ∧
    scrapeNode worldPrimaryDown (Node.mk "n1" "") = (["/api/v1/nodes/n1/proxy/metrics"], none) ∧
    scrapeAll worldPrimaryDown [Node.mk "n1" ""] = [] := by
  refine ⟨?_, ?_, ?_, ?_, ?_⟩ <;> rfl

/-- C4 (amended): when the primary fetch fails, only the primary path is
requested and the node is skipped.  When the primary document is fetched but
does not parse or lacks `kubelet_volume_stats_used_bytes`, the fallback path
is requested as well; if the fallback is fetched and parses, its families are
the ones aggregated for the node, and otherwise the primary families are
aggregated if the primary document parsed and the node is skipped if it did
not.  A primary document that parses and has the family is aggregated without
a second request.  The node is skipped exactly when the primary fetch fails,
or the primary document does not parse and the fallback is not fetched or does
not parse; a skipped node leaves the aggregates as they were, and for a node
that is not skipped the aggregates are those of the families chosen folded
into the aggregates of the nodes before it.  On `worldFallback` the families
of the fallback document are the ones aggregated; on `worldNoSamples` the node
is not skipped and still adds no aggregate, its family holding no sample. -/
theorem scrapeNode_fallback (w : World) (n : Node) :
    (w.getRaw ("/api/v1/nodes/" ++ n.Name ++ "/proxy/metrics") = none →
      (scrapeNode w n).1 = ["/api/v1/nodes/" ++ n.Name ++ "/proxy/metrics"] ∧
      ∀ nodes, scrapeAll w (nodes ++ [n]) = scrapeAll w nodes) ∧
    (∀ raw, w.getRaw ("/api/v1/nodes/" ++ n.Name ++ "/proxy/metrics") = some raw →
      lacksUsedBytes (parseFamilies w raw) = true →
        (scrapeNode w n).1 = ["/api/v1/nodes/" ++ n.Name ++ "/proxy/metrics",
          "/api/v1/nodes/" ++ n.Name ++ "/proxy/metrics/resource"] ∧
        (∀ raw2 fams2,
          w.getRaw ("/api/v1/nodes/" ++ n.Name ++ "/proxy/metrics/resource") = some raw2 →
          parseFamilies w raw2 = some fams2 →
          ∀ nodes, scrapeAll w (nodes ++ [n]) =
            aggregateFamilies w.nsFilter fams2 (scrapeAll w nodes)) ∧
        ((w.getRaw ("/api/v1/nodes/" ++ n.Name ++ "/proxy/metrics/resource") = none ∨
          ∃ raw2, w.getRaw ("/api/v1/nodes/" ++ n.Name ++ "/proxy/metrics/resource") = some raw2 ∧
            parseFamilies w raw2 = none) →
          ∀ nodes, scrapeAll w (nodes ++ [n]) =
            match parseFamilies w raw with
            | none => scrapeAll w nodes
            | some fams => aggregateFamilies w.nsFilter fams (scrapeAll w nodes))) ∧
    (∀ raw fams, w.getRaw ("/api/v1/nodes/" ++ n.Name ++ "/proxy/metrics") = some raw →
      parseFamilies w raw = some fams → lacksUsedBytes (some fams) = false →
        (scrapeNode w n).1 = ["/api/v1/nodes/" ++ n.Name ++ "/proxy/metrics"] ∧
        ∀ nodes, scrapeAll w (nodes ++ [n]) =
          aggregateFamilies w.nsFilter fams (scrapeAll w nodes)) ∧
    ((scrapeNode w n).2 = none ↔
      (w.getRaw ("/api/v1/nodes/" ++ n.Name ++ "/proxy/metrics") = none ∨
        ∃ raw, w.getRaw ("/api/v1/nodes/" ++ n.Name ++ "/proxy/metrics") = some raw ∧
          parseFamilies w raw = none ∧
          (w.getRaw ("/api/v1/nodes/" ++ n.Name ++ "/proxy/metrics/resource") = none ∨
            ∃ raw2, w.getRaw ("/api/v1/nodes/" ++ n.Name ++ "/proxy/metrics/resource") = some raw2 ∧
              parseFamilies w raw2 = none))) ∧
    ((scrapeNode w n).2 = none → ∀ nodes, scrapeAll w (nodes ++ [n]) = scrapeAll w nodes) ∧
    (∀ fams, (scrapeNode w n).2 = some fams →
      ∀ nodes, scrapeAll w (nodes ++ [n]) =
        aggregateFamilies w.nsFilter fams (scrapeAll w nodes)) ∧
    (scrapeNode worldFallback (Node.mk "n1" "") =
        (["/api/v1/nodes/n1/proxy/metrics", "/api/v1/nodes/n1/proxy/metrics/resource"],
          some famsUsedBytes) ∧
      scrapeAll worldFallback [Node.mk "n1" ""] =
        [("default/data", usage.mk (F64.ofInt 50) F64.zero F64.zero F64.zero)]) ∧
    (scrapeNode worldNoSamples (Node.mk "n1" "") =
        (["/api/v1/nodes/n1/proxy/metrics"], some [("kubelet_volume_stats_used_bytes", [])]) ∧
      scrapeAll worldNoSamples [Node.mk "n1" ""] = []) := by
  refine ⟨?_, ?_, ?_, ?_, ?_, ?_, ⟨by rfl, by rfl⟩, ⟨by rfl, by rfl⟩⟩
  · intro h
    have hs : scrapeNode w n = (["/api/v1/nodes/" ++ n.Name ++ "/proxy/metrics"], none) := by
      simp [scrapeNode, h]
    refine ⟨by rw [hs], fun nodes => ?_⟩
    rw [scrapeAll_snoc, hs]
  · intro raw h hl
    refine ⟨?_, ?_, ?_⟩
    · simp only [scrapeNode, h, hl, if_true]
      cases w.getRaw ("/api/v1/nodes/" ++ n.Name ++ "/proxy/metrics/resource") with
      | none => rfl
      | some raw2 =>
        dsimp only
        cases parseFamilies w raw2 <;> rfl
    · intro raw2 fams2 h2 hp2 nodes
      have hs : (scrapeNode w n).2 = some fams2 := by
        simp [scrapeNode, h, hl, h2, hp2]
      rw [scrapeAll_snoc, hs]
    · intro hfail nodes
      have hs : (scrapeNode w n).2 = parseFamilies w raw := by
        rcases hfail with h2 | ⟨raw2, h2, hp2⟩
        · simp [scrapeNode, h, hl, h2]
        · simp [scrapeNode, h, hl, h2, hp2]
      rw [scrapeAll_snoc, hs]
  · intro raw fams h hp hl
    have hs : scrapeNode w n =
        (["/api/v1/nodes/" ++ n.Name ++ "/proxy/metrics"], some fams) := by
      simp [scrapeNode, h, hp, hl]
    refine ⟨by rw [hs], fun nodes => ?_⟩
    rw [scrapeAll_snoc, hs]
  · cases h : w.getRaw ("/api/v1/nodes/" ++ n.Name ++ "/proxy/metrics") with
    | none => simp [scrapeNode, h]
    | some raw =>
      cases hp : parseFamilies w raw with
      | none =>
        cases h2 : w.getRaw ("/api/v1/nodes/" ++ n.Name ++ "/proxy/metrics/resource") with
        | none => simp [scrapeNode, h, hp, h2, lacksUsedBytes]
        | some raw2 =>
          cases hp2 : parseFamilies w raw2 <;> simp [scrapeNode, h, hp, h2, hp2, lacksUsedBytes]
      | some fams =>
        by_cases hl : lacksUsedBytes (some fams) = true
        · cases h2 : w.getRaw ("/api/v1/nodes/" ++ n.Name ++ "/proxy/metrics/resource") with
          | none => simp [scrapeNode, h, hp, h2, hl]
          | some raw2 =>
            cases hp2 : parseFamilies w raw2 <;> simp [scrapeNode, h, hp, h2, hp2, hl]
        · simp [scrapeNode, h, hp, hl]
  · intro h nodes
    rw [scrapeAll_snoc, h]
  · intro fams h nodes
    rw [scrapeAll_snoc, h]

/-- C8 (the code at the failing input): a volume whose CSI handle holds no
`vol-` identifier puts the raw handle into `allVolIDs`, although the pattern
`vol-[0-9a-fA-F]+` has no match in it. -/
theorem collectVolIDs_foreign_handle :
    collectVolIDs [pvForeignHandle] = ["fs-0123456789abcdef0"] ∧
    volReFindString ("fs-0123456789abcdef0" : String).data = [] := by
  constructor
  · rfl
  · rfl

/-- C5 (the code at the failing input): an age of 4097 hours less one
nanosecond has 4096 whole hours, that is 170 days and 16 hours.
`Duration.Hours` adds the float 4096 and the float quotient of 3599999999999
by 3.6e12, which is `9007199254738490 * 2^-53`; floats from 4096 on are
`2^-40` apart, the exact sum is nearer to 4097 than to `4097 - 2^-40`, and the
sum is the float 4097.  `humanizeAge` prints 170d17h.  The four ages of the
specification print as it says. -/
theorem humanizeAge_rounds_hours_up :
    (14749199999999999 : Int) = 4097 * Hour - 1 ∧
    (14749199999999999 : Int) / Hour = 4096 ∧ (4096 : Int) / 24 = 170 ∧ (4096 : Int) % 24 = 16 ∧
    (14749199999999999 : Int).tdiv Hour = 4096 ∧
    (14749199999999999 : Int).tmod Hour = 3599999999999 ∧
    F64.ofInt 4096 = F64.fin false (2 ^ 52) (-40) ∧
    F64.div (F64.ofInt 3599999999999) (F64.ofInt 3600000000000) =
      F64.fin false 9007199254738490 (-53) ∧
    F64.add (F64.fin false (2 ^ 52) (-40)) (F64.fin false 9007199254738490 (-53)) =
      F64.fin false (4097 * 2 ^ 40) (-40) ∧
    (Duration.Hours 14749199999999999).toInt = 4097 ∧
    humanizeAge 14749199999999999 = "170d17h" ∧
    humanizeAge (45 * Second) = "45s" ∧ humanizeAge (90 * Second) = "1m" ∧
    humanizeAge (25 * Hour) = "1d1h" ∧ humanizeAge (48 * Hour) = "2d" := by
  refine ⟨?_, ?_, ?_, ?_, ?_, ?_, ?_, ?_, ?_, ?_, ?_, ?_, ?_, ?_, ?_⟩ <;> decide

/-- C9 (as stated, refuted): the node `n1` reports NaN used bytes and a
capacity of one byte for `default/data`; the capacity is above zero and the
CAP% column is `NaN`, which has no fractional digit. -/
theorem percent_not_a_number_counterexample :
    (F64.ofInt 1).gtZero = true ∧
    listRun worldNaN =
      Except.ok [Row.mk "default" "data" "(none)" "-" "" "" "-" "-" "Pending" "NaN" "-" "-" "-"
        "0s"] := by
  refine ⟨?_, ?_⟩ <;> rfl

/-- C9 (amended): CAP% is the placeholder `-` unless the capacity is above
zero, and is then the float `usedBytes / capacityBytes * 100` formatted by
`%.1f`: with exactly one fractional digit when that value is finite, as `NaN`,
`+Inf` or `-Inf` when it is not.  IND% follows the same rule with the inode
counters.  Both are `-` when the claim has no aggregate.  50 of 200 renders
`25.0`; a capacity of 0 renders `-`. -/
theorem percent_columns (t : Tables) (now : Int) (ro : Nat → List String → List String)
    (items : List PersistentVolumeClaim) (i : Nat) (pvc : PersistentVolumeClaim)
    (hi : items[i]? = some pvc) :
    ∃ r, (rowLoop t now ro items)[i]? = some r ∧
      (t.usageByPVC.lookup (pvc.Namespace ++ "/" ++ pvc.Name) = none →
        r.CAP_PCT = "-" ∧ r.IND_PCT = "-") ∧
      (∀ u, t.usageByPVC.lookup (pvc.Namespace ++ "/" ++ pvc.Name) = some u →
        PctRendering u.usedBytes u.capacityBytes r.CAP_PCT ∧
        PctRendering u.inodesUsed u.inodesTotal r.IND_PCT) ∧
      pctColumn (F64.ofInt 50) (F64.ofInt 200) = "25.0" ∧
      pctColumn (F64.ofInt 50) (F64.ofInt 0) = "-" := by
  refine ⟨mkRow t now (ro i) pvc, by simp [rowLoop_getElem?, hi], ?_, ?_, by rfl, by rfl⟩
  · intro hu
    rw [mkRow_CAP_PCT, mkRow_IND_PCT]
    simp [rowCapPct, rowInodePct, hu]
  · intro u hu
    rw [mkRow_CAP_PCT, mkRow_IND_PCT]
    simp only [rowCapPct, rowInodePct, hu]
    exact ⟨pctColumn_rendering _ _, pctColumn_rendering _ _⟩

/-- C9 (amended), at a concrete input: the aggregate of `default/data` holds 50
bytes used of 200 and 1 inode used of 3; the row shows 25.0 and 33.3. -/
theorem percent_columns_witness :
    (rowLoop tablesUsage 0 (fun _ l => l) [claimData]).map (fun r : Row => (r.CAP_PCT, r.IND_PCT)) =
      [("25.0", "33.3")] ∧
    ∃ r, (rowLoop tablesUsage 0 (fun _ l => l) [claimData])[0]? = some r ∧
      (tablesUsage.usageByPVC.lookup (claimData.Namespace ++ "/" ++ claimData.Name) = none →
        r.CAP_PCT = "-" ∧ r.IND_PCT = "-") ∧
      (∀ u, tablesUsage.usageByPVC.lookup (claimData.Namespace ++ "/" ++ claimData.Name) = some u →
        PctRendering u.usedBytes u.capacityBytes r.CAP_PCT ∧
        PctRendering u.inodesUsed u.inodesTotal r.IND_PCT) ∧
      pctColumn (F64.ofInt 50) (F64.ofInt 200) = "25.0" ∧
      pctColumn (F64.ofInt 50) (F64.ofInt 0) = "-" :=
  ⟨by rfl, percent_columns tablesUsage 0 (fun _ l => l) [claimData] 0 claimData rfl⟩

/-- The list `allVolIDs` holds no identifier twice and no empty identifier; it
holds exactly the non-empty results of `extractVolumeID` over the volumes. -/
theorem collectVolIDs_nodup_nonempty (items : List PersistentVolume) :
    (collectVolIDs items).Nodup ∧
    ∀ id, id ∈ collectVolIDs items ↔ (id ≠ "" ∧ ∃ pv ∈ items, extractVolumeID pv = id) := by
  have h := collectVolIDs_fold items []
  refine ⟨h.1 List.nodup_nil, fun id => ?_⟩
  have := h.2 id
  simpa [collectVolIDs] using this

/-- The batch loop never runs out of fuel: any bound of at least the number of
identifiers gives the result `fetchVolTypes` computes. -/
theorem fetchVolTypes_fuel (describe : List String → Option (List EC2Volume)) (fuel : Nat)
    (ids : List String) (h : ids.length ≤ fuel) :
    describeLoop describe fuel ids [] = fetchVolTypes (some describe) ids := by
  exact describeLoop_fuel describe fuel ids.length ids [] h (le_refl _)

/-- The bound of `fetchVolTypes_fuel` at a concrete input. -/
theorem fetchVolTypes_fuel_witness :
    describeLoop (fun _ => none) 5 ["vol-0a", "vol-0b"] [] =
      fetchVolTypes (some (fun _ => none)) ["vol-0a", "vol-0b"] :=
  fetchVolTypes_fuel (fun _ => none) 5 ["vol-0a", "vol-0b"] (by decide)

/-- For every age from zero up to, not including, 4096 hours, `humanizeAge`
prints what the specification describes: whole seconds under one minute,
otherwise the two most significant non-zero units among whole days, hours and
minutes; in the last case the minutes are at least one. -/
theorem humanizeAge_below_4096_hours (d : Int) (h0 : 0 ≤ d) (h : d < 4096 * Hour) :
    humanizeAge d = humanizeAgeSpec d ∧
    (Minute ≤ d → d / Hour = 0 → 1 ≤ d / Minute % 60) := by
  constructor
  · unfold humanizeAge humanizeAgeSpec
    by_cases hm : d < Minute
    · simp only [hm, if_true, Seconds_toInt d h0 hm]
    · have hH : 0 ≤ d / Hour := Int.ediv_nonneg h0 (by decide)
      have hM : 0 ≤ d / Minute := Int.ediv_nonneg h0 (by decide)
      simp only [hm, if_false, Hours_toInt d h0 h, Minutes_toInt d h0 h,
        Int.tdiv_eq_ediv hH (by decide : (0 : Int) ≤ 24),
        Int.tmod_eq_emod hH (by decide : (0 : Int) ≤ 24),
        Int.tmod_eq_emod hM (by decide : (0 : Int) ≤ 60)]
  · intro hmin hhour
    have e1 : Minute = 60000000000 := rfl
    have e2 : Hour = 3600000000000 := rfl
    rw [e1] at hmin ⊢
    rw [e2] at hhour
    omega

/-- The ages of the specification, through `humanizeAge_below_4096_hours`. -/
theorem humanizeAge_below_4096_hours_witness :
    humanizeAge (25 * Hour) = humanizeAgeSpec (25 * Hour) ∧
    (Minute ≤ 25 * Hour → 25 * Hour / Hour = 0 → 1 ≤ 25 * Hour / Minute % 60) :=
  humanizeAge_below_4096_hours (25 * Hour) (by decide) (by decide)

end Ekvols
